import Mathlib

/-!
Verification of the payment route finder (`src/lightning/src/routing/router.rs`)
against its natural-language specification.

The Rust source is shallowly embedded: `u64`/`u32` values are represented as
`Nat` with explicit `2^64` bounds where the Rust code uses checked arithmetic;
unchecked Rust arithmetic that can overflow or underflow (which panics in a
debug build) is modelled in an `Except` monad whose `panic` constructor marks
the spots where the Rust program would abort.  Rust `HashMap`s are modelled as
association lists, the `BinaryHeap` frontier as a list with a
select-the-maximum pop, and loops as fuel-indexed recursions.
-/

namespace Router

/-- Largest value of a Rust `u64`. -/
def U64_MAX : Nat := 2 ^ 64 - 1

/-- Largest value of a Rust `u32`. -/
def U32_MAX : Nat := 2 ^ 32 - 1

/-- Rust `u64::checked_mul`. -/
def checked_mul (a b : Nat) : Option Nat :=
  if a * b ≤ U64_MAX then some (a * b) else none

/-- Rust `u64::checked_add`. -/
def checked_add (a b : Nat) : Option Nat :=
  if a + b ≤ U64_MAX then some (a + b) else none

/-- Rust `u64::checked_sub`. -/
def checked_sub (a b : Nat) : Option Nat :=
  if b ≤ a then some (a - b) else none

/-- Errors surfaced by the embedded router: `lightning` models the
`LightningError` value carried by `Err` (with its message), while `abort`
models a Rust panic (failed `assert!`/`unreachable!`/`expect`, or an
unchecked arithmetic overflow in a debug build). -/
inductive RErr where
  | lightning (msg : String)
  | abort (msg : String)
deriving DecidableEq, Repr

/-- Unchecked Rust `u64` addition: panics (debug build) on overflow. -/
def uadd (a b : Nat) : Except RErr Nat :=
  if a + b ≤ U64_MAX then .ok (a + b) else .error (.abort "attempt to add with overflow")

/-- Unchecked Rust `u64` multiplication: panics (debug build) on overflow. -/
def umul (a b : Nat) : Except RErr Nat :=
  if a * b ≤ U64_MAX then .ok (a * b) else .error (.abort "attempt to multiply with overflow")

/-- Unchecked Rust `u64` subtraction: panics (debug build) on underflow. -/
def usub (a b : Nat) : Except RErr Nat :=
  if b ≤ a then .ok (a - b) else .error (.abort "attempt to subtract with overflow")

/-- `RoutingFees` from `routing::network_graph` (a `u32` pair). -/
structure RoutingFees where
  base_msat : Nat
  proportional_millionths : Nat
deriving DecidableEq, Repr

/-- Embedding of `compute_fees`: proportional part via `checked_mul`, then the
truncating division by 1,000,000 and the `checked_add` of the base fee. -/
def compute_fees (amount_msat : Nat) (channel_fees : RoutingFees) : Option Nat :=
  (checked_mul amount_msat channel_fees.proportional_millionths).bind
    (fun part => checked_add channel_fees.base_msat (part / 1000000))

/-- Modelled from the spec: the feature-byte containers (`NodeFeatures`,
`ChannelFeatures`, `InvoiceFeatures`, `InitFeatures` of the external features
module) are abstracted to the two feature predicates the router consults,
`requires_unknown_bits` and `supports_basic_mpp`; `to_context` conversions are
the identity on this abstraction. -/
structure Features where
  requires_unknown_bits : Bool
  supports_basic_mpp : Bool
deriving DecidableEq, Repr

/-- Feature container with no bits set (`Features::empty()`). -/
def Features.empty : Features := ⟨false, false⟩

/-- Feature-context conversion (`to_context()`), the identity here. -/
def Features.to_context (f : Features) : Features := f

/-- Embedding of `RouteHop` (node ids abstracted to `Nat`). -/
structure RouteHop where
  pubkey : Nat
  node_features : Features
  short_channel_id : Nat
  channel_features : Features
  fee_msat : Nat
  cltv_expiry_delta : Nat
deriving DecidableEq, Repr

/-- Embedding of `PathBuildingHop`. -/
structure PathBuildingHop where
  route_hop : RouteHop
  src_lowest_inbound_fees : RoutingFees
  channel_fees : RoutingFees
  next_hops_fee_msat : Nat
  hop_use_fee_msat : Nat
  total_fee_msat : Nat
  htlc_minimum_msat : Nat
deriving DecidableEq, Repr

/-- Embedding of `PaymentPath`. -/
structure PaymentPath where
  hops : List PathBuildingHop
deriving DecidableEq, Repr

/-- `PaymentPath::get_value_msat`: the terminal hop's `fee_msat`
(`unwrap` on an empty path is a panic). -/
def PaymentPath.get_value_msat (p : PaymentPath) : Except RErr Nat :=
  match p.hops.getLast? with
  | none => .error (.abort "called unwrap on an empty hops vector")
  | some h => .ok h.route_hop.fee_msat

/-- `PaymentPath::get_total_fee_paid_msat`: sum of `fee_msat` over all
non-terminal hops (unchecked `u64` additions). -/
def PaymentPath.get_total_fee_paid_msat (p : PaymentPath) : Except RErr Nat :=
  p.hops.dropLast.foldlM (fun acc h => uadd acc h.route_hop.fee_msat) 0

/-- Arithmetic core of one `update_value_and_recompute_fees` loop iteration:
the transferred amount `total + value`, the
`htlc_minimum_msat` deficit match via `checked_sub`, and the three unchecked
additions of the deficit.  Returns the transferred amount, the updated
running fee total and the updated current-hop fees. -/
def recompute_core (value_msat htlc_min cur_hop_fees0 total : Nat) :
    Except RErr (Nat × Nat × Nat) := do
  let t0 ← uadd total value_msat
  match checked_sub htlc_min t0 with
  | some extra_fees_msat => do
      let a ← uadd t0 extra_fees_msat
      let b ← uadd total extra_fees_msat
      let c ← uadd cur_hop_fees0 extra_fees_msat
      pure (a, b, c)
  | none => pure (t0, total, cur_hop_fees0)

/-- The `if i != 0` tail of one `update_value_and_recompute_fees` iteration:
for a payer-side hop the running total is left alone and no use fee is
recomputed (`none`); otherwise the hop's use fee is recomputed on the
transferred amount (the `unreachable!()` on a `compute_fees` overflow) and
added (unchecked) to the running total. -/
def recompute_fee_step (isPayer : Bool) (channel_fees : RoutingFees)
    (t1 total1 : Nat) : Except RErr (Option Nat × Nat) :=
  if isPayer then
    pure (none, total1)
  else
    match compute_fees t1 channel_fees with
    | some new_fee => do
        let total2 ← uadd total1 new_fee
        pure (some new_fee, total2)
    | none => .error (.abort "internal error: entered unreachable code")

/-- One iteration of the payee-to-payer loop inside
`update_value_and_recompute_fees` (the body of the `for i in rev` loop).
`succ_use` is `none` exactly on the terminal hop, and otherwise carries the
already-updated `hop_use_fee_msat` of `hops[i+1]`; `isPayer` tells whether
`i == 0` (the payer-side hop, whose `hop_use_fee_msat` is not recomputed). -/
def recompute_step (value_msat : Nat) (isPayer : Bool) (succ_use : Option Nat)
    (cur : PathBuildingHop) (total : Nat) : Except RErr (PathBuildingHop × Nat) := do
  let cur_hop_fees0 : Nat := match succ_use with | none => 0 | some u => u
  let (t1, total1, fees1) ←
    recompute_core value_msat cur.htlc_minimum_msat cur_hop_fees0 total
  let (use_fee, totalF) ← recompute_fee_step isPayer cur.channel_fees t1 total1
  let cur2 :=
    { cur with next_hops_fee_msat := total,
               route_hop := { cur.route_hop with
                              fee_msat := if succ_use.isNone then t1 else fees1 } }
  pure (match use_fee with
        | some new_fee => { cur2 with hop_use_fee_msat := new_fee }
        | none => cur2,
    totalF)

/-- The payee-to-payer walk of `update_value_and_recompute_fees`, on the
reversed (payee-first) hop list, threading `total_fee_paid_msat`. -/
def recompute_go (value_msat : Nat) :
    List PathBuildingHop → Nat → Option Nat → Except RErr (List PathBuildingHop × Nat)
  | [], total, _ => .ok ([], total)
  | cur :: rest, total, succ_use => do
      let (cur', total') ← recompute_step value_msat rest.isEmpty succ_use cur total
      let (rest', totalF) ← recompute_go value_msat rest total' (some cur'.hop_use_fee_msat)
      pure (cur' :: rest', totalF)

/-- Embedding of `PaymentPath::update_value_and_recompute_fees`: assert the
new value does not exceed the terminal hop's `fee_msat`, then walk the hops
payee-to-payer recomputing fees and matching `htlc_minimum_msat`. -/
def PaymentPath.update_value_and_recompute_fees (p : PaymentPath) (value_msat : Nat) :
    Except RErr PaymentPath := do
  match p.hops.getLast? with
  | none => .error (.abort "called unwrap on an empty hops vector")
  | some last =>
    if value_msat ≤ last.route_hop.fee_msat then do
      let (rev', _) ← recompute_go value_msat p.hops.reverse 0 none
      pure ⟨rev'.reverse⟩
    else
      .error (.abort "assertion failed: value_msat <= last hop fee_msat")

/-- Association-list lookup, modelling `HashMap::get` (first binding wins;
`mapInsert` below keeps at most one binding per key). -/
def mapGet {α : Type} (m : List (Nat × α)) (k : Nat) : Option α :=
  (m.find? (fun kv => kv.1 == k)).map (fun kv => kv.2)

/-- Association-list insert, modelling `HashMap::insert` (overwrites any
existing binding for the key). -/
def mapInsert {α : Type} (m : List (Nat × α)) (k : Nat) (v : α) : List (Nat × α) :=
  (k, v) :: m.filter (fun kv => !(kv.1 == k))

/-- Association-list remove, modelling `HashMap::remove`: returns the removed
value (if any) together with the map without that key. -/
def mapRemove {α : Type} (m : List (Nat × α)) (k : Nat) : Option α × List (Nat × α) :=
  (mapGet m k, m.filter (fun kv => !(kv.1 == k)))

/-- Modelled from the spec: `MAX_VALUE_MSAT`, the external message module's
bound on a single payment amount (21 million BTC expressed in msat). -/
def MAX_VALUE_MSAT : Nat := 2100000000000000000

/-- Directional channel parameters as consumed by `add_entry`: the common
fields of `DirectionalChannelInfo` (from the external `network_graph` module,
modelled from the spec) and of the source's `DummyDirectionalChannelInfo`. -/
structure DirInfo where
  cltv_expiry_delta : Nat
  htlc_minimum_msat : Nat
  htlc_maximum_msat : Option Nat
  fees : RoutingFees
deriving DecidableEq, Repr

/-- `DummyDirectionalChannelInfo` used for first-hop routes: zero fees, zero
minimum, no maximum, zero cltv delta. -/
def dummy_directional_info : DirInfo :=
  { cltv_expiry_delta := 0, htlc_minimum_msat := 0, htlc_maximum_msat := none,
    fees := { base_msat := 0, proportional_millionths := 0 } }

/-- Modelled from the spec: per-direction channel information of the external
`network_graph` module (`enabled` plus the `DirInfo` fields). -/
structure DirectionalChannelInfo where
  enabled : Bool
  cltv_expiry_delta : Nat
  htlc_minimum_msat : Nat
  htlc_maximum_msat : Option Nat
  fees : RoutingFees
deriving DecidableEq, Repr

/-- The `DirInfo` view of a `DirectionalChannelInfo`. -/
def DirectionalChannelInfo.toDir (d : DirectionalChannelInfo) : DirInfo :=
  { cltv_expiry_delta := d.cltv_expiry_delta, htlc_minimum_msat := d.htlc_minimum_msat,
    htlc_maximum_msat := d.htlc_maximum_msat, fees := d.fees }

/-- Modelled from the spec: the announcement record of a node, of which the
router reads only the feature bits. -/
structure NodeAnnouncementInfo where
  features : Features
deriving DecidableEq, Repr

/-- Modelled from the spec: a node record of the external network graph. -/
structure NodeInfo where
  channels : List Nat
  lowest_inbound_channel_fees : Option RoutingFees
  announcement_info : Option NodeAnnouncementInfo
deriving DecidableEq, Repr

/-- Modelled from the spec: a channel record of the external network graph. -/
structure ChannelInfo where
  node_one : Nat
  node_two : Nat
  features : Features
  one_to_two : Option DirectionalChannelInfo
  two_to_one : Option DirectionalChannelInfo
  capacity_sats : Option Nat
deriving DecidableEq, Repr

/-- Modelled from the spec: the read-only network graph view
(`get_nodes()` / `get_channels()` as association lists). -/
structure NetworkGraph where
  nodes : List (Nat × NodeInfo)
  channels : List (Nat × ChannelInfo)
deriving DecidableEq, Repr

/-- Embedding of `RouteHint` (a last-hop route hint). -/
structure RouteHint where
  src_node_id : Nat
  short_channel_id : Nat
  fees : RoutingFees
  cltv_expiry_delta : Nat
  htlc_minimum_msat : Option Nat
  htlc_maximum_msat : Option Nat
deriving DecidableEq, Repr

/-- Modelled from the spec: the fields of `ChannelDetails` (the external
channel-manager module's first-hop channel descriptor) that `get_route`
reads. -/
structure ChannelDetails where
  short_channel_id : Option Nat
  remote_network_id : Nat
  counterparty_features : Features
  outbound_capacity_msat : Nat
deriving DecidableEq, Repr

/-- Embedding of `RouteGraphNode` (a search-frontier entry). -/
structure RouteGraphNode where
  pubkey : Nat
  lowest_fee_to_peer_through_node : Nat
  lowest_fee_to_node : Nat
  value_contribution_msat : Nat
deriving DecidableEq, Repr

/-- Embedding of `Route`. -/
structure Route where
  paths : List (List RouteHop)
deriving DecidableEq, Repr

/-- The mutable search state threaded through `add_entry`: the `targets`
frontier (`BinaryHeap`, modelled as a list with a best-first pop), the `dist`
map and the cross-iteration channel liquidity book. -/
structure SearchState where
  targets : List RouteGraphNode
  dist : List (Nat × PathBuildingHop)
  book : List (Nat × Nat)
deriving DecidableEq, Repr

/-- Strict key order of the `BinaryHeap` pop: the Rust `Ord` on
`RouteGraphNode` reverses both the fee comparison and the serialized-pubkey
tiebreak, so the heap pops an entry minimising
`(lowest_fee_to_peer_through_node, pubkey)` lexicographically (pubkey bytes
abstracted to the `Nat` order). -/
def rgn_before (a b : RouteGraphNode) : Bool :=
  a.lowest_fee_to_peer_through_node < b.lowest_fee_to_peer_through_node ||
    (a.lowest_fee_to_peer_through_node == b.lowest_fee_to_peer_through_node &&
     a.pubkey < b.pubkey)

/-- `BinaryHeap::pop`: remove and return a best entry (ties resolved towards
the most recently pushed, which Rust leaves unspecified). -/
def heap_pop : List RouteGraphNode → Option (RouteGraphNode × List RouteGraphNode)
  | [] => none
  | x :: xs =>
    match heap_pop xs with
    | none => some (x, [])
    | some (m, rest) => if rgn_before m x then some (m, x :: rest) else some (x, xs)

/-- Addition saturating to `u64::MAX`: the source pattern
`checked_add(..).unwrap_or(u64::max_value())` used for the relaxation cost
comparison. -/
def sat_add (a b : Nat) : Nat :=
  match checked_add a b with
  | some c => c
  | none => U64_MAX

/-- The liquidity memoization of `add_entry`
(`bookkeeped_channels_liquidity_available_msat.entry(..).or_insert_with`):
start from `capacity_sats * 1000` (an unchecked multiplication), tighten by
`htlc_maximum_msat`, default to 250,000 sats, and insert into the book. -/
def resolve_liquidity (book : List (Nat × Nat)) (chan_id : Nat)
    (capacity_sats : Option Nat) (dinfo : DirInfo) :
    Except RErr (Nat × List (Nat × Nat)) :=
  match mapGet book chan_id with
  | some a => pure (a, book)
  | none => do
      let init0 : Option Nat ←
        match capacity_sats with
        | some cap => do
            let c ← umul cap 1000
            pure (some c)
        | none => pure none
      let init1 : Option Nat :=
        match dinfo.htlc_maximum_msat with
        | some hmax =>
            some (match init0 with | some a => min a hmax | none => hmax)
        | none => init0
      let a := match init1 with | some a => a | none => 250000 * 1000
      pure (a, mapInsert book chan_id a)

/-- Modelled from the spec's wording: the effective capacity at which a fresh
liquidity-book entry is created — `capacity_sats * 1000` tightened by
`htlc_maximum_msat`, defaulting to 250,000 sats when neither is known. -/
def spec_effective_capacity (capacity_sats : Option Nat) (dinfo : DirInfo) : Nat :=
  match capacity_sats, dinfo.htlc_maximum_msat with
  | some cap, some hmax => min (cap * 1000) hmax
  | some cap, none => cap * 1000
  | none, some hmax => hmax
  | none, none => 250000 * 1000

/-- The fragmentation-mitigation minimal contribution: with MPP, a 20th
(rounded up) of the still-to-be-collected recommended value (an unchecked
subtraction and addition); without MPP, the full `final_value_msat`. -/
def minimal_contribution (allow_mpp : Bool)
    (recommended_value_msat already_collected_value_msat final_value_msat : Nat) :
    Except RErr Nat :=
  if allow_mpp then do
    let d ← usub recommended_value_msat already_collected_value_msat
    let n ← uadd d 19
    pure (n / 20)
  else
    pure final_value_msat

/-- The fee block of `add_entry`: zero fee for channels out of the payer;
otherwise this hop's fee via `compute_fees` plus the estimated previous-hop
fee from the source's lowest inbound fees, with every overflow collapsing the
total to the `u64::MAX` sentinel (so the candidate loses the cost
comparison). -/
def hop_fee_and_total (our_node_id src_node_id : Nat)
    (amount_to_transfer_over_msat next_hops_fee_msat : Nat)
    (dinfo_fees src_lowest_inbound_fees : RoutingFees) : Except RErr (Nat × Nat) :=
  if src_node_id ≠ our_node_id then
    match compute_fees amount_to_transfer_over_msat dinfo_fees with
    | none => pure ((0 : Nat), U64_MAX)
    | some fee_msat => do
        let t1 ← uadd next_hops_fee_msat fee_msat
        let arg ← uadd t1 amount_to_transfer_over_msat
        match compute_fees arg src_lowest_inbound_fees with
        | some prev_hop_fee_msat =>
            match checked_add t1 prev_hop_fee_msat with
            | some incremented_total_fee_msat =>
                pure (fee_msat, incremented_total_fee_msat)
            | none => pure (fee_msat, U64_MAX)
        | none => pure (fee_msat, U64_MAX)
  else
    pure ((0 : Nat), next_hops_fee_msat)

/-- The `dist.entry(src).or_insert_with(..)` step of `add_entry`: the
existing entry, or a freshly inserted semi-dummy entry carrying the source's
lowest inbound fees and a `u64::MAX` total fee. -/
def get_or_insert_dist (network : NetworkGraph) (dist : List (Nat × PathBuildingHop))
    (src_node_id dest_node_id : Nat) (dinfo : DirInfo) (chan_features : Features) :
    PathBuildingHop × List (Nat × PathBuildingHop) :=
  match mapGet dist src_node_id with
  | some e => (e, dist)
  | none =>
    let fees :=
      match mapGet network.nodes src_node_id with
      | some node =>
          match node.lowest_inbound_channel_fees with
          | some f => f
          | none => RoutingFees.mk U32_MAX U32_MAX
      | none => RoutingFees.mk U32_MAX U32_MAX
    let dummy : PathBuildingHop :=
      { route_hop := { pubkey := dest_node_id, node_features := Features.empty,
                       short_channel_id := 0, channel_features := chan_features,
                       fee_msat := 0, cltv_expiry_delta := 0 },
        src_lowest_inbound_fees := fees,
        channel_fees := dinfo.fees,
        next_hops_fee_msat := U64_MAX,
        hop_use_fee_msat := U64_MAX,
        total_fee_msat := U64_MAX,
        htlc_minimum_msat := dinfo.htlc_minimum_msat }
    (dummy, mapInsert dist src_node_id dummy)

/-- Embedding of the `add_entry!` macro: relax the directed candidate edge
`src_node_id → dest_node_id` over channel `chan_id`.  Memoizes the channel's
available liquidity in the book, applies the fragmentation heuristic, the
`htlc_minimum_msat` admission check, the fee computation with its saturation
to `u64::MAX`, and the `htlc_minimum`-biased cost comparison deciding whether
the `dist` entry is replaced and a `RouteGraphNode` pushed. -/
def add_entry (our_node_id : Nat) (network : NetworkGraph) (allow_mpp : Bool)
    (recommended_value_msat final_value_msat already_collected_value_msat : Nat)
    (chan_id src_node_id dest_node_id : Nat) (dinfo : DirInfo)
    (capacity_sats : Option Nat) (chan_features : Features)
    (next_hops_fee_msat next_hops_value_contribution : Nat)
    (st : SearchState) : Except RErr SearchState := do
  if src_node_id ≠ dest_node_id then do
    let (available_liquidity_msat, book1) ←
      resolve_liquidity st.book chan_id capacity_sats dinfo
    match checked_sub available_liquidity_msat next_hops_fee_msat with
    | none => pure { st with book := book1 }
    | some available_value_contribution_msat => do
        let minimal_value_contribution_msat ←
          minimal_contribution allow_mpp recommended_value_msat
            already_collected_value_msat final_value_msat
        let contributes_sufficient_value :=
          available_value_contribution_msat ≥ minimal_value_contribution_msat
        let value_contribution_msat :=
          min available_value_contribution_msat next_hops_value_contribution
        let amount_to_transfer_over_msat ←
          match checked_add value_contribution_msat next_hops_fee_msat with
          | some r => pure r
          | none => Except.error (.abort "internal error: entered unreachable code")
        if contributes_sufficient_value ∧
            amount_to_transfer_over_msat ≥ dinfo.htlc_minimum_msat then do
          let (old_entry, dist1) :=
            get_or_insert_dist network st.dist src_node_id dest_node_id dinfo chan_features
          let (hop_use_fee_msat, total_fee_msat) ←
            hop_fee_and_total our_node_id src_node_id amount_to_transfer_over_msat
              next_hops_fee_msat dinfo.fees old_entry.src_lowest_inbound_fees
          let lowest_fee_to_node ← uadd next_hops_fee_msat hop_use_fee_msat
          let new_graph_node : RouteGraphNode :=
            { pubkey := src_node_id,
              lowest_fee_to_peer_through_node := total_fee_msat,
              lowest_fee_to_node := lowest_fee_to_node,
              value_contribution_msat := value_contribution_msat }
          let old_cost := sat_add old_entry.total_fee_msat old_entry.htlc_minimum_msat
          let new_cost := sat_add total_fee_msat dinfo.htlc_minimum_msat
          if new_cost < old_cost then
            let updated : PathBuildingHop :=
              { old_entry with
                next_hops_fee_msat := next_hops_fee_msat,
                hop_use_fee_msat := hop_use_fee_msat,
                total_fee_msat := total_fee_msat,
                route_hop := { pubkey := dest_node_id, node_features := Features.empty,
                               short_channel_id := chan_id, channel_features := chan_features,
                               fee_msat := 0, cltv_expiry_delta := dinfo.cltv_expiry_delta },
                channel_fees := dinfo.fees,
                htlc_minimum_msat := dinfo.htlc_minimum_msat }
            pure { targets := new_graph_node :: st.targets,
                   dist := mapInsert dist1 src_node_id updated,
                   book := book1 }
          else
            pure { st with book := book1, dist := dist1 }
        else
          pure { st with book := book1 }
  else
    pure st

/-- The read-only per-call context shared by the search loops: identities,
graph view, caller-supplied hop sets and the collection parameters. -/
structure RouteCtx where
  our_node_id : Nat
  payee : Nat
  network : NetworkGraph
  first_hops_given : Bool
  first_hop_targets : List (Nat × (Nat × Features × Nat))
  last_hops : List RouteHint
  final_value_msat : Nat
  final_cltv : Nat
  recommended_value_msat : Nat
  allow_mpp : Bool
deriving Repr

/-- `add_entry!` applied with the context's constants. -/
def RouteCtx.add1 (ctx : RouteCtx) (collected chan_id src dest : Nat) (dinfo : DirInfo)
    (cap : Option Nat) (feats : Features) (fee val : Nat) (st : SearchState) :
    Except RErr SearchState :=
  add_entry ctx.our_node_id ctx.network ctx.allow_mpp ctx.recommended_value_msat
    ctx.final_value_msat collected chan_id src dest dinfo cap feats fee val st

/-- Embedding of `add_entries_to_cheapest_to_target_node!`: relax the
caller-supplied first-hop channel towards `node_id` (when first hops are
given), then every graph channel adjacent to `node_id` in the direction
towards it, skipping unknown-bits features, disabled directions and (when
first hops are given) graph channels out of the payer. -/
def add_entries_to_cheapest (ctx : RouteCtx) (collected : Nat) (node : NodeInfo)
    (node_id : Nat) (fee_to_target_msat next_hops_value_contribution : Nat)
    (st : SearchState) : Except RErr SearchState := do
  let st ←
    if ctx.first_hops_given then
      match mapGet ctx.first_hop_targets node_id with
      | some (first_hop, features, outbound_capacity_msat) =>
          ctx.add1 collected first_hop ctx.our_node_id node_id dummy_directional_info
            (some (outbound_capacity_msat / 1000)) features.to_context
            fee_to_target_msat next_hops_value_contribution st
      | none => pure st
    else
      pure st
  let features :=
    match node.announcement_info with
    | some node_info => node_info.features
    | none => Features.empty
  if !features.requires_unknown_bits then
    node.channels.foldlM (fun st chan_id =>
      match mapGet ctx.network.channels chan_id with
      | none => Except.error (.abort "called unwrap on a None value")
      | some chan =>
        if !chan.features.requires_unknown_bits then
          if chan.node_one = node_id then
            if ctx.first_hops_given = false ∨ chan.node_two ≠ ctx.our_node_id then
              match chan.two_to_one with
              | some two_to_one =>
                if two_to_one.enabled then
                  ctx.add1 collected chan_id chan.node_two chan.node_one two_to_one.toDir
                    chan.capacity_sats chan.features fee_to_target_msat
                    next_hops_value_contribution st
                else pure st
              | none => pure st
            else pure st
          else
            if ctx.first_hops_given = false ∨ chan.node_one ≠ ctx.our_node_id then
              match chan.one_to_two with
              | some one_to_two =>
                if one_to_two.enabled then
                  ctx.add1 collected chan_id chan.node_one chan.node_two one_to_two.toDir
                    chan.capacity_sats chan.features fee_to_target_msat
                    next_hops_value_contribution st
                else pure st
              | none => pure st
            else pure st
        else pure st) st
  else
    pure st

/-- The `'path_walk` loop: starting from the payer's `dist` entry, walk
forward to the payee, filling node features, propagating each successor's
`hop_use_fee_msat` and `cltv_expiry_delta` one hop backward, and consuming
`dist` entries.  `acc` holds the hops walked so far, most recent first. -/
def path_walk (ctx : RouteCtx) :
    Nat → List PathBuildingHop → List (Nat × PathBuildingHop) →
      Except RErr (List PathBuildingHop × List (Nat × PathBuildingHop))
  | 0, _, _ => .error (.abort "fuel exhausted in path walk")
  | fuel + 1, acc, dist =>
    match acc with
    | [] => .error (.abort "invariant violation: empty ordered_hops")
    | h :: tail => do
      let h' ←
        match mapGet ctx.first_hop_targets h.route_hop.pubkey with
        | some (_, features, _) =>
            Except.ok { h with route_hop :=
              { h.route_hop with node_features := features.to_context } }
        | none =>
          match mapGet ctx.network.nodes h.route_hop.pubkey with
          | some node =>
            match node.announcement_info with
            | some node_info =>
                Except.ok { h with route_hop :=
                  { h.route_hop with node_features := node_info.features } }
            | none =>
                Except.ok { h with route_hop :=
                  { h.route_hop with node_features := Features.empty } }
          | none =>
            if h.route_hop.pubkey = ctx.payee then Except.ok h
            else Except.error (.abort "assertion failed: last hop pubkey == payee")
      if h'.route_hop.pubkey = ctx.payee then
        pure (h' :: tail, dist)
      else
        match mapRemove dist h'.route_hop.pubkey with
        | (none, _) => .error (.abort "internal error: entered unreachable code")
        | (some new_entry, dist') =>
          let h'' := { h' with route_hop :=
            { h'.route_hop with
              fee_msat := new_entry.hop_use_fee_msat,
              cltv_expiry_delta := new_entry.route_hop.cltv_expiry_delta } }
          path_walk ctx fuel (new_entry :: h'' :: tail) dist'

/-- The liquidity-book deduction loop after a path is found: deduct
`value + next_hops_fee` from each used channel, stopping early (second
component `false`, partial deductions kept) if a channel would go negative. -/
def deduct_hops (value_contribution_msat : Nat) :
    List PathBuildingHop → List (Nat × Nat) → Except RErr (List (Nat × Nat) × Bool)
  | [], book => .ok (book, true)
  | hop :: rest, book =>
    match mapGet book hop.route_hop.short_channel_id with
    | none => .error (.abort "called unwrap on a None value")
    | some avail => do
      let spent ← uadd value_contribution_msat hop.next_hops_fee_msat
      if avail < spent then
        .ok (book, false)
      else
        deduct_hops value_contribution_msat rest
          (mapInsert book hop.route_hop.short_channel_id (avail - spent))

/-- The `'path_construction` loop: pop the frontier; on popping the payer,
reconstruct the path, apply the terminal-hop overrides, recompute fees, book
the liquidity and return it; otherwise keep relaxing from the popped node.
Returns the state, the updated collected value, the paths and the
`found_new_path` flag. -/
def inner_loop (ctx : RouteCtx) :
    Nat → SearchState → Nat → List PaymentPath →
      Except RErr (SearchState × Nat × List PaymentPath × Bool)
  | 0, _, _, _ => .error (.abort "fuel exhausted in path construction")
  | fuel + 1, st, collected, paths =>
    match heap_pop st.targets with
    | none => .ok (st, collected, paths, false)
    | some (rgn, rest_targets) =>
      let st := { st with targets := rest_targets }
      if rgn.pubkey = ctx.our_node_id then do
        let (entry?, dist0) := mapRemove st.dist ctx.our_node_id
        match entry? with
        | none => .error (.abort "called unwrap on a None value")
        | some new_entry => do
          let (acc, dist1) ← path_walk ctx (dist0.length + 1) [new_entry] dist0
          let acc ←
            match acc with
            | [] => .error (.abort "invariant violation: empty ordered_hops")
            | lastHop :: tl =>
              pure ({ lastHop with
                      route_hop := { lastHop.route_hop with
                                     fee_msat := rgn.value_contribution_msat,
                                     cltv_expiry_delta := ctx.final_cltv },
                      hop_use_fee_msat := 0 } :: tl)
          let payment_path0 : PaymentPath := ⟨acc.reverse⟩
          let payment_path ←
            payment_path0.update_value_and_recompute_fees rgn.value_contribution_msat
          let (book', completed) ←
            deduct_hops rgn.value_contribution_msat payment_path.hops st.book
          let st := { st with dist := dist1, book := book' }
          if completed then do
            let collected' ← uadd collected rgn.value_contribution_msat
            .ok (st, collected', paths ++ [payment_path], true)
          else
            .ok (st, collected, paths, false)
      else
        match mapGet ctx.network.nodes rgn.pubkey with
        | none => inner_loop ctx fuel st collected paths
        | some node => do
          let st' ← add_entries_to_cheapest ctx collected node rgn.pubkey
            rgn.lowest_fee_to_node rgn.value_contribution_msat st
          inner_loop ctx fuel st' collected paths

/-- Seeding of one `'paths_collection` iteration (step 1): the payer's
first-hop channel to the payee if any, the channels adjacent to the payee,
and the last-hop hints (with their first-hop connections). -/
def seed_iteration (ctx : RouteCtx) (collected : Nat) (book : List (Nat × Nat)) :
    Except RErr SearchState := do
  let st : SearchState := ⟨[], [], book⟩
  let st ←
    if ctx.first_hops_given then
      match mapGet ctx.first_hop_targets ctx.payee with
      | some (first_hop, features, outbound_capacity_msat) =>
          ctx.add1 collected first_hop ctx.our_node_id ctx.payee dummy_directional_info
            (some (outbound_capacity_msat / 1000)) features.to_context 0
            ctx.recommended_value_msat st
      | none => pure st
    else
      pure st
  let st ←
    match mapGet ctx.network.nodes ctx.payee with
    | none => pure st
    | some node =>
        add_entries_to_cheapest ctx collected node ctx.payee 0
          ctx.recommended_value_msat st
  ctx.last_hops.foldlM (fun st hop => do
    let (st, have_hop_src_in_graph) ←
      match mapGet ctx.first_hop_targets hop.src_node_id with
      | some (first_hop, features, outbound_capacity_msat) => do
          let st ← ctx.add1 collected first_hop ctx.our_node_id hop.src_node_id
            dummy_directional_info (some (outbound_capacity_msat / 1000))
            features.to_context 0 ctx.recommended_value_msat st
          pure (st, true)
      | none => pure (st, (mapGet ctx.network.nodes hop.src_node_id).isSome)
    if have_hop_src_in_graph then
      let last_hop_htlc_minimum_msat :=
        match hop.htlc_minimum_msat with
        | some htlc_minimum_msat => htlc_minimum_msat
        | none => 0
      let directional_info : DirInfo :=
        { cltv_expiry_delta := hop.cltv_expiry_delta,
          htlc_minimum_msat := last_hop_htlc_minimum_msat,
          htlc_maximum_msat := hop.htlc_maximum_msat,
          fees := hop.fees }
      ctx.add1 collected hop.short_channel_id hop.src_node_id ctx.payee
        directional_info none Features.empty 0 ctx.recommended_value_msat st
    else
      pure st) st

/-- The `'paths_collection` loop: seed, run one path construction, then stop
on `!allow_mpp`, on reaching the recommended value, or when no new path was
found; otherwise iterate with the updated liquidity book. -/
def paths_collection (ctx : RouteCtx) :
    Nat → Nat → List PaymentPath → List (Nat × Nat) →
      Except RErr (Nat × List PaymentPath)
  | 0, _, _, _ => .error (.abort "fuel exhausted in paths collection")
  | fuel + 1, collected, paths, book => do
    let st ← seed_iteration ctx collected book
    let inner_fuel := (ctx.network.nodes.length + ctx.network.channels.length +
      ctx.last_hops.length + ctx.first_hop_targets.length + 2) * 100000
    let (st', collected', paths', found_new_path) ←
      inner_loop ctx inner_fuel st collected paths
    if !ctx.allow_mpp then
      .ok (collected', paths')
    else if collected' ≥ ctx.recommended_value_msat ∨ found_new_path = false then
      .ok (collected', paths')
    else
      paths_collection ctx fuel collected' paths' st'.book

/-- `slice::sort_by_key` with a fallible key (stable sort — a stable sort's
output is unique, so the structural insertion sort used here agrees with the
source's merge sort; keys are evaluated once per element, and not at all on
slices shorter than two). -/
def sort_by_key_m {α : Type} (key : α → Except RErr Nat) (l : List α) :
    Except RErr (List α) :=
  match l with
  | [] => .ok []
  | [x] => .ok [x]
  | _ => do
    let keyed ← l.mapM (fun x => do
      let k ← key x
      pure (k, x))
    pure ((List.insertionSort (fun a b => a.1 ≤ b.1) keyed).map (fun kv => kv.2))

/-- The `cur_route.retain(..)` closure of step 3 of the composer: walking the
value-sorted paths, drop a path whenever its value is at most the remaining
overpaid amount (reducing it), but always keep the last remaining path. -/
def retain_paths :
    List PaymentPath → Nat → Nat → Except RErr (List PaymentPath × Nat)
  | [], _, overpaid => .ok ([], overpaid)
  | p :: rest, paths_left, overpaid =>
    if paths_left = 1 then do
      let (rest', ov') ← retain_paths rest paths_left overpaid
      .ok (p :: rest', ov')
    else do
      let path_value_msat ← p.get_value_msat
      if path_value_msat ≤ overpaid then
        retain_paths rest (paths_left - 1) (overpaid - path_value_msat)
      else do
        let (rest', ov') ← retain_paths rest paths_left overpaid
        .ok (p :: rest', ov')

/-- Steps 3 and 7 of the composer, run when the accumulated route value
exceeds `final_value_msat`: drop low-value paths against the overpaid
amount, then absorb any remainder by reducing the first path in
ascending-proportional-fee order. -/
def reduce_route (final_value_msat : Nat) (cur_route : List PaymentPath)
    (aggregate : Nat) : Except RErr (List PaymentPath) := do
  let overpaid_value_msat := aggregate - final_value_msat
  let sorted ← sort_by_key_m (fun p => p.get_value_msat) cur_route
  let (kept, overpaid') ← retain_paths sorted sorted.length overpaid_value_msat
  if overpaid' = 0 then
    .ok kept
  else if kept.length > 0 then do
    let sorted2 ← sort_by_key_m
      (fun p => p.hops.foldlM
        (fun acc h => uadd acc h.channel_fees.proportional_millionths) 0) kept
    match sorted2 with
    | [] => .error (.abort "called unwrap on a None value")
    | expensive_payment_path :: rest2 => do
      let v ← expensive_payment_path.get_value_msat
      let expensive_path_new_value_msat ← usub v overpaid'
      let expensive' ←
        expensive_payment_path.update_value_and_recompute_fees
          expensive_path_new_value_msat
      .ok (expensive' :: rest2)
  else
    .error (.abort "assertion failed: cur_route.len() > 0")

/-- Step 6 of the composer: append rotated paths one at a time, stopping (and
reducing) as soon as the cumulative value exceeds `final_value_msat`. -/
def route_accum (final_value_msat : Nat) :
    List PaymentPath → List PaymentPath → Nat → Except RErr (List PaymentPath)
  | [], cur_route, _ => .ok cur_route
  | p :: rest, cur_route, aggregate => do
    let cur_route := cur_route ++ [p]
    let v ← p.get_value_msat
    let aggregate ← uadd aggregate v
    if aggregate > final_value_msat then
      reduce_route final_value_msat cur_route aggregate
    else
      route_accum final_value_msat rest cur_route aggregate

/-- The first-hops preprocessing loop of `get_route`: `expect` a short
channel id (panic when absent), reject entries whose counterparty is the
payer, and build the `first_hop_targets` map. -/
def build_first_hop_targets (our_node_id : Nat) :
    List ChannelDetails → List (Nat × (Nat × Features × Nat)) →
      Except RErr (List (Nat × (Nat × Features × Nat)))
  | [], acc => .ok acc
  | chan :: rest, acc =>
    match chan.short_channel_id with
    | none =>
        .error (.abort "first_hops should be filled in with usable channels, not pending ones")
    | some short_channel_id =>
      if chan.remote_network_id = our_node_id then
        .error (.lightning "First hop cannot have our_node_id as a destination.")
      else
        build_first_hop_targets our_node_id rest
          (mapInsert acc chan.remote_network_id
            (short_channel_id, chan.counterparty_features, chan.outbound_capacity_msat))

/-- The route-composition tail of `get_route` (steps 5–8): sort the collected
paths by total fee, truncate to the 50 cheapest, draw a candidate route from
every rotation, pick the drawn route with the lowest total fee and attach the
payee features to its terminal hops. -/
def route_compose (final_value_msat : Nat) (payee_features : Option Features)
    (payment_paths0 : List PaymentPath) : Except RErr Route := do
  let payment_paths ← sort_by_key_m (fun p => p.get_total_fee_paid_msat) payment_paths0
  let payment_paths :=
    if payment_paths.length > 50 then payment_paths.take 50 else payment_paths
  let drawn_routes ← (List.range payment_paths.length).mapM (fun i =>
    route_accum final_value_msat (payment_paths.drop i ++ payment_paths.take i) [] 0)
  let drawn_routes ← sort_by_key_m
    (fun route => route.foldlM (fun acc p => do
      let f ← p.get_total_fee_paid_msat
      uadd acc f) 0) drawn_routes
  match drawn_routes with
  | [] => .error (.abort "called unwrap on a None value")
  | best :: _ => do
    let selected_paths := best.map (fun pp => pp.hops.map (fun h => h.route_hop))
    let selected_paths ←
      match payee_features with
      | some features =>
        selected_paths.mapM (fun path =>
          match path.getLast? with
          | none => Except.error (.abort "called unwrap on a None value")
          | some last =>
              pure (path.dropLast ++ [{ last with node_features := features.to_context }]))
      | none => pure selected_paths
    pure ⟨selected_paths⟩

/-- Embedding of `get_route`: input validation, multi-path collection, route
composition and payee-feature attachment. -/
def get_route (our_node_id : Nat) (network : NetworkGraph) (payee : Nat)
    (payee_features : Option Features) (first_hops : Option (List ChannelDetails))
    (last_hops : List RouteHint) (final_value_msat final_cltv : Nat) :
    Except RErr Route := do
  if payee = our_node_id then
    .error (.lightning "Cannot generate a route to ourselves")
  else if final_value_msat > MAX_VALUE_MSAT then
    .error (.lightning "Cannot generate a route of more value than all existing satoshis")
  else if final_value_msat = 0 then
    .error (.lightning "Cannot send a payment of 0 msat")
  else if last_hops.any (fun hop => hop.src_node_id == payee) then
    .error (.lightning "Last hop cannot have a payee as a source.")
  else do
    let recommended_value_msat ← umul final_value_msat 3
    let allow_mpp :=
      match payee_features with
      | some features => features.supports_basic_mpp
      | none =>
        match mapGet network.nodes payee with
        | some node =>
          match node.announcement_info with
          | some node_info => node_info.features.supports_basic_mpp
          | none => false
        | none => false
    let first_hop_targets ←
      match first_hops with
      | none => pure []
      | some hops => do
        let tgts ← build_first_hop_targets our_node_id hops []
        if tgts.isEmpty then
          Except.error (.lightning "Cannot route when there are no outbound routes away from us")
        else
          pure tgts
    let ctx : RouteCtx :=
      { our_node_id := our_node_id, payee := payee, network := network,
        first_hops_given := first_hops.isSome, first_hop_targets := first_hop_targets,
        last_hops := last_hops, final_value_msat := final_value_msat,
        final_cltv := final_cltv, recommended_value_msat := recommended_value_msat,
        allow_mpp := allow_mpp }
    let (already_collected_value_msat, payment_paths) ←
      paths_collection ctx (recommended_value_msat + 2) 0 [] []
    if payment_paths.length = 0 then
      .error (.lightning "Failed to find a path to the given destination")
    else if already_collected_value_msat < final_value_msat then
      .error (.lightning "Failed to find a sufficient route to the given destination")
    else
      route_compose final_value_msat payee_features payment_paths

/-- Terminal hop's `fee_msat` of a realized path (0 for an empty path). -/
def route_path_terminal_fee (p : List RouteHop) : Nat :=
  match p.getLast? with
  | some h => h.fee_msat
  | none => 0

/-- Sum over all paths of the terminal hop's `fee_msat` (the delivered
amount). -/
def Route.terminal_fees_sum (r : Route) : Nat :=
  (r.paths.map route_path_terminal_fee).sum

/-- Terminal hop's `fee_msat` of a `PaymentPath` (0 when empty) — the value
`get_value_msat` reads. -/
def path_terminal_fee (p : PaymentPath) : Nat :=
  match p.hops.getLast? with
  | some h => h.route_hop.fee_msat
  | none => 0

/-- Sum of the carried values of a list of payment paths. -/
def paths_terminal_sum (l : List PaymentPath) : Nat :=
  (l.map path_terminal_fee).sum

/-- Amount flowing over channel `scid` within one path: for each hop using
the channel, the path's carried value plus the fees paid downstream of that
hop (the sum of `fee_msat` from that hop to the end of the path). -/
def path_channel_load : List RouteHop → Nat → Nat
  | [], _ => 0
  | h :: t, scid =>
    (if h.short_channel_id = scid then ((h :: t).map (fun x => x.fee_msat)).sum else 0) +
      path_channel_load t scid

/-- Total amount flowing over channel `scid`, summed across all paths. -/
def Route.channel_load (r : Route) (scid : Nat) : Nat :=
  (r.paths.map (fun p => path_channel_load p scid)).sum

/-- The claim-side validation checker for the entry point, in the claim's
stated order, returning the message of the first violated condition. -/
def spec_first_error (our_node_id payee : Nat)
    (first_hops : Option (List ChannelDetails)) (last_hops : List RouteHint)
    (final_value_msat : Nat) : Option String :=
  if payee = our_node_id then
    some "Cannot generate a route to ourselves"
  else if final_value_msat > MAX_VALUE_MSAT then
    some "Cannot generate a route of more value than all existing satoshis"
  else if final_value_msat = 0 then
    some "Cannot send a payment of 0 msat"
  else if last_hops.any (fun hop => hop.src_node_id == payee) then
    some "Last hop cannot have a payee as a source."
  else
    match first_hops with
    | none => none
    | some hops =>
      if hops.any (fun ch => ch.remote_network_id == our_node_id) then
        some "First hop cannot have our_node_id as a destination."
      else if hops.isEmpty then
        some "Cannot route when there are no outbound routes away from us"
      else
        none

/-- The routing identity of a hop: pubkey, short channel id and
`cltv_expiry_delta` — the fields `update_value_and_recompute_fees` never
touches. -/
def hopKey (h : PathBuildingHop) : Nat × Nat × Nat :=
  (h.route_hop.pubkey, h.route_hop.short_channel_id, h.route_hop.cltv_expiry_delta)

/-- The terminal-hop property of a collected path: it ends at the payee with
the caller-provided final cltv. -/
def terminal_ok (final_cltv payee : Nat) (pp : PaymentPath) : Prop :=
  ∃ hl, pp.hops.getLast? = some hl ∧
    hl.route_hop.cltv_expiry_delta = final_cltv ∧ hl.route_hop.pubkey = payee

/-- The advertised cltv delta of an edge usable by the search: a graph
channel direction `src → dest` over `scid` advertising `delta`, a last-hop
hint into the payee, or a caller-provided first hop out of the payer (whose
dummy directional info advertises delta 0). -/
def adv_edge (ctx : RouteCtx) (src dest scid delta : Nat) : Bool :=
  (match mapGet ctx.network.channels scid with
   | some chan =>
       (chan.node_two == src && chan.node_one == dest &&
         (match chan.two_to_one with
          | some d => d.cltv_expiry_delta == delta
          | none => false)) ||
       (chan.node_one == src && chan.node_two == dest &&
         (match chan.one_to_two with
          | some d => d.cltv_expiry_delta == delta
          | none => false))
   | none => false) ||
  ctx.last_hops.any (fun hint =>
    hint.src_node_id == src && hint.short_channel_id == scid &&
      dest == ctx.payee && hint.cltv_expiry_delta == delta) ||
  (match mapGet ctx.first_hop_targets dest with
   | some fh => src == ctx.our_node_id && scid == fh.1 && delta == 0
   | none => false)

/-- The reconstruction invariant on a walked hop list (payee-side first): for
every adjacent pair, the later (payer-side) hop's `cltv_expiry_delta` is the
advertised delta of the earlier hop's channel, taken in the traversal
direction. -/
def cltv_chain_ok (ctx : RouteCtx) : List PathBuildingHop → Bool
  | x :: y :: rest =>
      adv_edge ctx y.route_hop.pubkey x.route_hop.pubkey
        x.route_hop.short_channel_id y.route_hop.cltv_expiry_delta &&
      cltv_chain_ok ctx (y :: rest)
  | _ => true

/-- Every `dist` binding records an advertised edge: the entry stored for
`src` describes a channel `src → entry.pubkey` whose recorded
`cltv_expiry_delta` is the advertised delta. -/
def dist_adv_ok (ctx : RouteCtx) (dist : List (Nat × PathBuildingHop)) : Bool :=
  dist.all (fun kv =>
    adv_edge ctx kv.1 kv.2.route_hop.pubkey kv.2.route_hop.short_channel_id
      kv.2.route_hop.cltv_expiry_delta)

/-- A payer(1)→payee(2) channel whose `htlc_minimum_msat` (150) exceeds the
requested amount below. -/
def c1Dir : DirectionalChannelInfo :=
  { enabled := true, cltv_expiry_delta := 6, htlc_minimum_msat := 150,
    htlc_maximum_msat := some 1000, fees := ⟨0, 0⟩ }

/-- Two-node graph with the single channel `c1Dir` (scid 100). -/
def c1Graph : NetworkGraph :=
  { nodes := [(1, ⟨[100], none, none⟩), (2, ⟨[100], none, none⟩)],
    channels := [(100, ⟨1, 2, Features.empty, some c1Dir, none, none⟩)] }

/-- The route `get_route` returns on `c1Graph` for 100 msat: a single-hop
path inflated to the channel's `htlc_minimum_msat` of 150. -/
def c1Route : Route :=
  ⟨[[{ pubkey := 2, node_features := Features.empty, short_channel_id := 100,
       channel_features := Features.empty, fee_msat := 150,
       cltv_expiry_delta := 42 }]]⟩

/-- Channel 20 of the capacity counterexample: A(3)→E(2), `htlc_minimum_msat`
1000, effective capacity (`htlc_maximum_msat`) 5300, 10% proportional fee. -/
def c5DirX : DirectionalChannelInfo :=
  { enabled := true, cltv_expiry_delta := 9, htlc_minimum_msat := 1000,
    htlc_maximum_msat := some 5300, fees := ⟨0, 100000⟩ }

/-- Channel 21 of the capacity counterexample: P(1)→A(3), capacity 1500. -/
def c5DirC1 : DirectionalChannelInfo :=
  { enabled := true, cltv_expiry_delta := 5, htlc_minimum_msat := 0,
    htlc_maximum_msat := some 1500, fees := ⟨0, 0⟩ }

/-- Channel 22 of the capacity counterexample: P(1)→A(3), capacity 6000. -/
def c5DirC2 : DirectionalChannelInfo :=
  { enabled := true, cltv_expiry_delta := 6, htlc_minimum_msat := 0,
    htlc_maximum_msat := some 6000, fees := ⟨0, 0⟩ }

/-- Graph of the capacity counterexample: payer 1, intermediate 3, payee 2,
channels 20 (3→2), 21 and 22 (1→3). -/
def c5Graph : NetworkGraph :=
  { nodes := [(1, ⟨[21, 22], none, none⟩),
              (3, ⟨[20, 21, 22], some ⟨0, 0⟩, none⟩),
              (2, ⟨[20], none, none⟩)],
    channels := [(20, ⟨3, 2, Features.empty, some c5DirX, none, none⟩),
                 (21, ⟨1, 3, Features.empty, some c5DirC1, none, none⟩),
                 (22, ⟨1, 3, Features.empty, some c5DirC2, none, none⟩)] }

/-- Payee invoice features advertising basic MPP. -/
def c5MppFeatures : Features := ⟨false, true⟩

/-- A channel whose `capacity_sats` (2^61) overflows `u64` when multiplied by
1000 inside `add_entry`. -/
def c6Dir : DirectionalChannelInfo :=
  { enabled := true, cltv_expiry_delta := 6, htlc_minimum_msat := 0,
    htlc_maximum_msat := none, fees := ⟨0, 0⟩ }

/-- Two-node graph whose only channel has `capacity_sats = 2^61`. -/
def c6Graph : NetworkGraph :=
  { nodes := [(1, ⟨[100], none, none⟩), (2, ⟨[100], none, none⟩)],
    channels := [(100, ⟨1, 2, Features.empty, some c6Dir, none, some (2 ^ 61)⟩)] }

/-- A single-hop path with an inconsistent `next_hops_fee_msat` (7) whose
terminal `fee_msat` (10) satisfies the channel's `htlc_minimum_msat` (5). -/
def c8bHop : PathBuildingHop :=
  { route_hop := { pubkey := 2, node_features := Features.empty, short_channel_id := 5,
                   channel_features := Features.empty, fee_msat := 10, cltv_expiry_delta := 42 },
    src_lowest_inbound_fees := ⟨0, 0⟩, channel_fees := ⟨0, 0⟩,
    next_hops_fee_msat := 7, hop_use_fee_msat := 0, total_fee_msat := 0,
    htlc_minimum_msat := 5 }

/-- The hop `c8bHop` after one recompute (its `next_hops_fee_msat` reset). -/
def c8bHopQ : PathBuildingHop :=
  { c8bHop with next_hops_fee_msat := 0 }

/-- Directional info of the C4 witness channel: cltv 11, minimum 5, base fee
2. -/
def c4Dinfo : DirInfo :=
  { cltv_expiry_delta := 11, htlc_minimum_msat := 5, htlc_maximum_msat := none,
    fees := ⟨2, 0⟩ }

/-- The stored (semi-dummy) `dist` entry of the C4 witness. -/
def c4Old : PathBuildingHop :=
  { route_hop := { pubkey := 2, node_features := Features.empty, short_channel_id := 0,
                   channel_features := Features.empty, fee_msat := 0, cltv_expiry_delta := 0 },
    src_lowest_inbound_fees := ⟨0, 0⟩, channel_fees := ⟨2, 0⟩,
    next_hops_fee_msat := U64_MAX, hop_use_fee_msat := U64_MAX,
    total_fee_msat := U64_MAX, htlc_minimum_msat := 5 }

/-- The search state of the C4 witness: one stored entry for node 3 and a
memoized liquidity of 1000 for channel 7. -/
def c4St : SearchState := ⟨[], [(3, c4Old)], [(7, 1000)]⟩

/-- The replacement entry the C4 witness relaxation writes. -/
def c4Updated : PathBuildingHop :=
  { c4Old with
    next_hops_fee_msat := 0,
    hop_use_fee_msat := 2,
    total_fee_msat := 2,
    route_hop := { pubkey := 2, node_features := Features.empty, short_channel_id := 7,
                   channel_features := Features.empty, fee_msat := 0,
                   cltv_expiry_delta := 11 },
    channel_fees := ⟨2, 0⟩,
    htlc_minimum_msat := 5 }

/-- The empty network graph used by the C4 witness. -/
def c4Net : NetworkGraph := ⟨[], []⟩

/-- A reconstruction context over `c1Graph` (payer 1, payee 2). -/
def ctx9 : RouteCtx :=
  { our_node_id := 1, payee := 2, network := c1Graph, first_hops_given := false,
    first_hop_targets := [], last_hops := [], final_value_msat := 100,
    final_cltv := 42, recommended_value_msat := 300, allow_mpp := false }

/-- The payee-side hop of the C9 walk witness (channel 100 into node 2). -/
def c9HopA : PathBuildingHop :=
  { route_hop := { pubkey := 2, node_features := Features.empty, short_channel_id := 100,
                   channel_features := Features.empty, fee_msat := 150, cltv_expiry_delta := 42 },
    src_lowest_inbound_fees := ⟨0, 0⟩, channel_fees := ⟨0, 0⟩,
    next_hops_fee_msat := 0, hop_use_fee_msat := 0, total_fee_msat := 0,
    htlc_minimum_msat := 150 }

/-- The payer-side hop of the C9 walk witness: its `cltv_expiry_delta` (6) is
channel 100's advertised delta. -/
def c9HopB : PathBuildingHop :=
  { route_hop := { pubkey := 1, node_features := Features.empty, short_channel_id := 0,
                   channel_features := Features.empty, fee_msat := 150, cltv_expiry_delta := 6 },
    src_lowest_inbound_fees := ⟨0, 0⟩, channel_fees := ⟨0, 0⟩,
    next_hops_fee_msat := 0, hop_use_fee_msat := 0, total_fee_msat := 0,
    htlc_minimum_msat := 0 }

/-- A single-hop path whose terminal `fee_msat` (10) is below the channel's
`htlc_minimum_msat` (20). -/
def c8Hop : PathBuildingHop :=
  { route_hop := { pubkey := 2, node_features := Features.empty, short_channel_id := 5,
                   channel_features := Features.empty, fee_msat := 10, cltv_expiry_delta := 42 },
    src_lowest_inbound_fees := ⟨0, 0⟩, channel_fees := ⟨0, 0⟩,
    next_hops_fee_msat := 0, hop_use_fee_msat := 0, total_fee_msat := 0,
    htlc_minimum_msat := 20 }

/-- The path of `c8Hop`. -/
def c8Path : PaymentPath := ⟨[c8Hop]⟩

/-- A hop over channel 20 with no downstream fees, used to exercise the
liquidity-book deduction. -/
def c5BookHop : PathBuildingHop :=
  { route_hop := { pubkey := 2, node_features := Features.empty, short_channel_id := 20,
                   channel_features := Features.empty, fee_msat := 100, cltv_expiry_delta := 42 },
    src_lowest_inbound_fees := ⟨0, 0⟩, channel_fees := ⟨0, 0⟩,
    next_hops_fee_msat := 0, hop_use_fee_msat := 0, total_fee_msat := 0,
    htlc_minimum_msat := 0 }

/-- Modelled from the spec: fixed-width big-endian byte encoding (most
significant byte first), as used by the external serialization module for
`u8`/`u32`/`u64` and the 33-byte compressed pubkey. -/
def write_be : Nat → Nat → List Nat
  | 0, _ => []
  | w + 1, n => (n / 256 ^ w) :: write_be w (n % 256 ^ w)

/-- Big-endian accumulator read of `w` bytes. -/
def read_be_go : Nat → List Nat → Nat → Option (Nat × List Nat)
  | 0, l, acc => some (acc, l)
  | w + 1, b :: rest, acc => read_be_go w rest (acc * 256 + b)
  | _ + 1, [], _ => none

/-- Modelled from the spec: fixed-width big-endian read. -/
def read_be (w : Nat) (l : List Nat) : Option (Nat × List Nat) :=
  read_be_go w l 0

/-- Take `k` bytes off the stream. -/
def read_bytes : Nat → List Nat → Option (List Nat × List Nat)
  | 0, l => some ([], l)
  | k + 1, b :: rest => do
    let (bs, l2) ← read_bytes k rest
    some (b :: bs, l2)
  | _ + 1, [] => none

/-- The flag byte of the two modelled feature bits. -/
def features_byte (f : Features) : Nat :=
  (if f.requires_unknown_bits then 1 else 0) +
    (if f.supports_basic_mpp then 2 else 0)

/-- Modelled from the spec: features are serialized as a length-prefixed byte
array (`u16` big-endian length, here always 1 flag byte). -/
def write_features (f : Features) : List Nat :=
  write_be 2 1 ++ [features_byte f]

/-- Modelled from the spec: read a length-prefixed features byte array and
decode the two modelled feature bits from its first flag byte. -/
def read_features (l : List Nat) : Option (Features × List Nat) := do
  let (len, l1) ← read_be 2 l
  let (bs, l2) ← read_bytes len l1
  let b := match bs with
    | b :: _ => b
    | [] => 0
  some (⟨b % 2 = 1, b / 2 % 2 = 1⟩, l2)

/-- `Writeable for RouteHop` (inside `Writeable for Vec<RouteHop>`): pubkey,
node features, short channel id, channel features, fee and cltv delta. -/
def write_route_hop (h : RouteHop) : List Nat :=
  write_be 33 h.pubkey ++ write_features h.node_features ++
    write_be 8 h.short_channel_id ++ write_features h.channel_features ++
    write_be 8 h.fee_msat ++ write_be 4 h.cltv_expiry_delta

/-- `Readable for RouteHop` (inside `Readable for Vec<RouteHop>`). -/
def read_route_hop (l : List Nat) : Option (RouteHop × List Nat) := do
  let (pubkey, l1) ← read_be 33 l
  let (node_features, l2) ← read_features l1
  let (short_channel_id, l3) ← read_be 8 l2
  let (channel_features, l4) ← read_features l3
  let (fee_msat, l5) ← read_be 8 l4
  let (cltv_expiry_delta, l6) ← read_be 4 l5
  some (⟨pubkey, node_features, short_channel_id, channel_features, fee_msat,
    cltv_expiry_delta⟩, l6)

/-- The hop bodies of `Writeable for Vec<RouteHop>`. -/
def write_hops_list : List RouteHop → List Nat
  | [] => []
  | h :: rest => write_route_hop h ++ write_hops_list rest

/-- `Writeable for Vec<RouteHop>`: the hop count truncated to `u8`
(`len as u8`), then the hops. -/
def write_hops (hops : List RouteHop) : List Nat :=
  (hops.length % 256) :: write_hops_list hops

/-- The counted-hops read loop of `Readable for Vec<RouteHop>`. -/
def read_hops_go : Nat → List Nat → Option (List RouteHop × List Nat)
  | 0, l => some ([], l)
  | k + 1, l => do
    let (h, l1) ← read_route_hop l
    let (hs, l2) ← read_hops_go k l1
    some (h :: hs, l2)

/-- `Readable for Vec<RouteHop>`: a `u8` hop count, then that many hops. -/
def read_hops (l : List Nat) : Option (List RouteHop × List Nat) := do
  let (count, l1) ← read_be 1 l
  read_hops_go count l1

/-- The path bodies of `Writeable for Route`. -/
def write_paths_list : List (List RouteHop) → List Nat
  | [] => []
  | p :: rest => write_hops p ++ write_paths_list rest

/-- `Writeable for Route`: a `u64` path count, then the paths. -/
def write_route (r : Route) : List Nat :=
  write_be 8 r.paths.length ++ write_paths_list r.paths

/-- The counted-paths read loop of `Readable for Route` (the
`Vec::with_capacity(min(path_count, 128))` allocation bound has no
observable effect: the loop reads all `path_count` declared paths). -/
def read_paths_go : Nat → List Nat → Option (List (List RouteHop) × List Nat)
  | 0, l => some ([], l)
  | k + 1, l => do
    let (p, l1) ← read_hops l
    let (ps, l2) ← read_paths_go k l1
    some (p :: ps, l2)

/-- `Readable for Route`: a `u64` path count, then that many paths. -/
def read_route (l : List Nat) : Option (Route × List Nat) := do
  let (count, l1) ← read_be 8 l
  let (ps, l2) ← read_paths_go count l1
  some (⟨ps⟩, l2)

/-- In-range fields of a `RouteHop` (`u64`/`u32` values and a 33-byte
pubkey). -/
def hop_wf (h : RouteHop) : Bool :=
  h.pubkey < 256 ^ 33 && h.short_channel_id < 2 ^ 64 &&
    h.fee_msat < 2 ^ 64 && h.cltv_expiry_delta < 2 ^ 32

/-- Serializability of a `Route`: a `u64` path count, at most 255 hops per
path (the hop count is written as a `u8`) and in-range hop fields. -/
def route_wf (r : Route) : Bool :=
  decide (r.paths.length < 2 ^ 64) &&
    r.paths.all (fun p => decide (p.length ≤ 255) && p.all hop_wf)

/-- Reduction of the monadic bind on a success value. -/
theorem ebind_ok {α β : Type} (a : α) (f : α → Except RErr β) :
    (Except.ok a : Except RErr α) >>= f = f a :=
  rfl

/-- Reduction of the monadic bind on an error value. -/
theorem ebind_err {α β : Type} (e : RErr) (f : α → Except RErr β) :
    (Except.error e : Except RErr α) >>= f = Except.error e :=
  rfl

/-- C2: `compute_fees` returns `some (base_msat + amount * proportional / 10^6)`
(truncating division) exactly when neither the multiplication nor the addition
overflows `u64`, and `none` as soon as either checked operation overflows. -/
theorem compute_fees_spec (amount_msat : Nat) (f : RoutingFees) :
    compute_fees amount_msat f =
      if amount_msat * f.proportional_millionths ≤ U64_MAX ∧
         f.base_msat + (amount_msat * f.proportional_millionths) / 1000000 ≤ U64_MAX then
        some (f.base_msat + (amount_msat * f.proportional_millionths) / 1000000)
      else
        none := by
  unfold compute_fees checked_mul checked_add
  by_cases h1 : amount_msat * f.proportional_millionths ≤ U64_MAX
  · by_cases h2 :
      f.base_msat + (amount_msat * f.proportional_millionths) / 1000000 ≤ U64_MAX
    · simp [h1, h2]
    · simp [h1, h2]
  · simp [h1]

/-- C8 counterexample: calling `update_value_and_recompute_fees` with the
path's current carried value (10) does not leave this path unchanged — the
terminal hop's `fee_msat` is inflated to the channel's `htlc_minimum_msat`. -/
theorem update_value_not_idempotent :
    c8Path.get_value_msat = .ok 10 ∧
      c8Path.update_value_and_recompute_fees 10 ≠ .ok c8Path := by
  refine ⟨rfl, ?_⟩
  intro h
  have h2 : c8Path.update_value_and_recompute_fees 10 =
      .ok ⟨[{ c8Hop with
              route_hop := { c8Hop.route_hop with fee_msat := 20 } }]⟩ := by
    rfl
  rw [h2] at h
  simp [c8Path, c8Hop] at h

/-- One recompute step is a fixed point of itself: re-running
`recompute_step` on its own output hop (same value, totals and successor fee)
reproduces that output.  This holds because the step reads only
`htlc_minimum_msat` and `channel_fees`, which it never writes. -/
theorem recompute_step_fixed (v : Nat) (e : Bool) (succ : Option Nat)
    (cur cur' : PathBuildingHop) (total total' : Nat)
    (h : recompute_step v e succ cur total = .ok (cur', total')) :
    recompute_step v e succ cur' total = .ok (cur', total') := by
  unfold recompute_step at h ⊢
  simp only [bind, Except.bind] at h ⊢
  split at h
  · exact absurd h (by simp)
  · rename_i trip hcore
    obtain ⟨t1, total1, fees1⟩ := trip
    split at h
    · exact absurd h (by simp)
    · rename_i pr hfee
      obtain ⟨use_fee, totalF⟩ := pr
      simp only [pure, Except.pure, Except.ok.injEq, Prod.mk.injEq] at h
      obtain ⟨hcur, htot⟩ := h
      subst hcur
      rcases use_fee with _ | u
      · simp only [hcore, hfee]
        simp [pure, Except.pure, htot]
      · simp only [hcore, hfee]
        simp [pure, Except.pure, htot]

/-- The recompute walk preserves the number of hops. -/
theorem recompute_go_length (v : Nat) :
    ∀ (hs hs' : List PathBuildingHop) (total T : Nat) (succ : Option Nat),
      recompute_go v hs total succ = .ok (hs', T) → hs'.length = hs.length := by
  intro hs
  induction hs with
  | nil =>
    intro hs' total T succ h
    simp only [recompute_go, Except.ok.injEq, Prod.mk.injEq] at h
    obtain ⟨h1, _⟩ := h
    subst h1; rfl
  | cons cur rest ih =>
    intro hs' total T succ h
    simp only [recompute_go, bind, Except.bind] at h
    rcases hstep : recompute_step v rest.isEmpty succ cur total with err | ⟨cur', total'⟩
    · simp [hstep] at h
    · simp only [hstep] at h
      rcases hrest : recompute_go v rest total' (some cur'.hop_use_fee_msat) with
        err | ⟨rest', TF⟩
      · simp [hrest] at h
      · simp only [hrest, pure, Except.pure, Except.ok.injEq, Prod.mk.injEq] at h
        obtain ⟨h1, _⟩ := h
        subst h1
        simpa using ih rest' total' TF (some cur'.hop_use_fee_msat) hrest

/-- Re-running the payee-to-payer recompute walk on its own output (same
value, initial total and successor fee) reproduces that output. -/
theorem recompute_go_fixed (v : Nat) :
    ∀ (hs hs' : List PathBuildingHop) (total T : Nat) (succ : Option Nat),
      recompute_go v hs total succ = .ok (hs', T) →
      recompute_go v hs' total succ = .ok (hs', T) := by
  intro hs
  induction hs with
  | nil =>
    intro hs' total T succ h
    simp only [recompute_go, Except.ok.injEq, Prod.mk.injEq] at h
    obtain ⟨h1, h2⟩ := h
    subst h1; subst h2
    rfl
  | cons cur rest ih =>
    intro hs' total T succ h
    simp only [recompute_go, bind, Except.bind] at h
    rcases hstep : recompute_step v rest.isEmpty succ cur total with err | ⟨cur', total'⟩
    · simp [hstep] at h
    · simp only [hstep] at h
      rcases hrest : recompute_go v rest total' (some cur'.hop_use_fee_msat) with
        err | ⟨rest', TF⟩
      · simp [hrest] at h
      · simp only [hrest, pure, Except.pure, Except.ok.injEq, Prod.mk.injEq] at h
        obtain ⟨h1, h2⟩ := h
        subst h1; subst h2
        have hlen : rest'.length = rest.length :=
          recompute_go_length v rest rest' total' TF (some cur'.hop_use_fee_msat) hrest
        have hempty : rest'.isEmpty = rest.isEmpty := by
          cases rest' <;> cases rest <;> simp_all
        simp only [recompute_go, bind, Except.bind, hempty,
          recompute_step_fixed v rest.isEmpty succ cur cur' total total' hstep,
          ih rest' total' TF (some cur'.hop_use_fee_msat) hrest]
        rfl

/-- C8 (amended): `update_value_and_recompute_fees` is idempotent on any path
it has itself produced, provided the terminal hop was not inflated to meet
`htlc_minimum_msat` — if updating `p` to value `v` yields `q` whose terminal
`fee_msat` is still `v` (the path's current carried value), then updating `q`
with that carried value returns `q` with every field of every hop unchanged. -/
theorem update_value_idempotent (p q : PaymentPath) (v : Nat) (hl : PathBuildingHop)
    (h : p.update_value_and_recompute_fees v = .ok q)
    (hlast : q.hops.getLast? = some hl)
    (hfee : hl.route_hop.fee_msat = v) :
    q.update_value_and_recompute_fees v = .ok q := by
  unfold PaymentPath.update_value_and_recompute_fees at h ⊢
  rcases hpl : p.hops.getLast? with _ | plast
  · simp [hpl] at h
  · simp only [hpl] at h
    by_cases hle : v ≤ plast.route_hop.fee_msat
    · simp only [hle, if_true, bind, Except.bind] at h
      rcases hgo : recompute_go v p.hops.reverse 0 none with err | ⟨rev', T⟩
      · simp [hgo] at h
      · simp only [hgo, pure, Except.pure, Except.ok.injEq] at h
        subst h
        simp only [hlast, hfee, le_refl, if_true, bind, Except.bind]
        have : (PaymentPath.mk rev'.reverse).hops.reverse = rev' := by
          simp
        rw [this]
        rw [recompute_go_fixed v p.hops.reverse rev' 0 T none hgo]
        rfl
    · simp [hle] at h

/-- C8 witness data: applying the amended idempotence theorem at the concrete
one-hop path `c8bHop` (updated to `c8bHopQ`). -/
theorem update_value_idempotent_witness :
    (PaymentPath.mk [c8bHopQ]).update_value_and_recompute_fees 10 = .ok ⟨[c8bHopQ]⟩ :=
  update_value_idempotent ⟨[c8bHop]⟩ ⟨[c8bHopQ]⟩ 10 c8bHopQ (by rfl) (by rfl) (by rfl)

/-- C1 counterexample: on `c1Graph` with a requested `final_value_msat` of
100, `get_route` succeeds but the sum of the terminal hops' `fee_msat` is 150
(the terminal channel's `htlc_minimum_msat`), not the requested 100. -/
theorem get_route_deliverance_counterexample :
    (get_route 1 c1Graph 2 none none [] 100 42).map Route.terminal_fees_sum = .ok 150 ∧
      (150 : Nat) ≠ 100 :=
  ⟨rfl, by decide⟩

/-- C5 counterexample: on `c5Graph` with a requested value of 5000, the
returned route pushes 5330 msat over channel 20, whose effective capacity is
its `htlc_maximum_msat` of 5300 (its `capacity_sats` being unknown). -/
theorem get_route_capacity_counterexample :
    (get_route 1 c5Graph 2 (some c5MppFeatures) none [] 5000 42).map
        (fun r => Route.channel_load r 20) = .ok 5330 ∧
      c5DirX.htlc_maximum_msat = some 5300 ∧
      (mapGet c5Graph.channels 20).map (fun c => c.capacity_sats) = some none ∧
      (5330 : Nat) > 5300 :=
  ⟨rfl, rfl, rfl, by decide⟩

/-- C6 counterexample: `get_route` can panic with an arithmetic overflow — on
`c6Graph` the very first relaxation computes `capacity_sats * 1000` with
`capacity_sats = 2^61`, which overflows `u64` (a debug-build panic). -/
theorem get_route_overflow_panic_counterexample :
    get_route 1 c6Graph 2 none none [] 100 42 =
      .error (.abort "attempt to multiply with overflow") :=
  rfl

/-- When every entry has a short channel id and some entry's counterparty is
the payer, the first-hops preprocessing loop returns exactly the
first-hop validation error. -/
theorem build_first_hop_targets_counterparty_error (our_node_id : Nat) :
    ∀ (hops : List ChannelDetails) (acc : List (Nat × (Nat × Features × Nat))),
      (∀ ch ∈ hops, ch.short_channel_id.isSome) →
      hops.any (fun ch => ch.remote_network_id == our_node_id) = true →
      build_first_hop_targets our_node_id hops acc =
        .error (.lightning "First hop cannot have our_node_id as a destination.") := by
  intro hops
  induction hops with
  | nil => intro acc _ hany; simp at hany
  | cons ch rest ih =>
    intro acc hscid hany
    rcases hs : ch.short_channel_id with _ | s
    · have := hscid ch (by simp)
      rw [hs] at this
      simp at this
    · simp only [build_first_hop_targets, hs]
      by_cases hrem : ch.remote_network_id = our_node_id
      · simp [hrem]
      · simp only [hrem, if_false]
        apply ih
        · intro c hc
          exact hscid c (List.mem_cons_of_mem _ hc)
        · simp only [List.any_cons, Bool.or_eq_true] at hany
          rcases hany with h | h
          · exact absurd (by simpa using h) hrem
          · exact h

/-- C3: `get_route` performs its input validation in the claim's stated order
and returns the exact message of the first violated condition (given that
every provided first-hop entry carries a short channel id, the case the claim
presupposes — a missing id is a panic, not one of these errors). -/
theorem get_route_validation_order
    (our_node_id payee : Nat) (network : NetworkGraph) (payee_features : Option Features)
    (first_hops : Option (List ChannelDetails)) (last_hops : List RouteHint)
    (final_value_msat final_cltv : Nat) (msg : String)
    (hscid : ∀ hops, first_hops = some hops → ∀ ch ∈ hops, ch.short_channel_id.isSome)
    (hmsg : spec_first_error our_node_id payee first_hops last_hops final_value_msat =
      some msg) :
    get_route our_node_id network payee payee_features first_hops last_hops
      final_value_msat final_cltv = .error (.lightning msg) := by
  unfold spec_first_error at hmsg
  by_cases h1 : payee = our_node_id
  · simp only [h1, if_true, Option.some.injEq] at hmsg
    simp [get_route, h1, ← hmsg]
  · simp only [h1, if_false] at hmsg
    by_cases h2 : final_value_msat > MAX_VALUE_MSAT
    · simp only [h2, if_true, Option.some.injEq] at hmsg
      simp [get_route, h1, h2, ← hmsg]
    · simp only [h2, if_false] at hmsg
      by_cases h3 : final_value_msat = 0
      · simp only [h3, if_true, Option.some.injEq] at hmsg
        simp [get_route, h1, h2, h3, ← hmsg]
      · simp only [h3, if_false] at hmsg
        by_cases h4 : last_hops.any (fun hop => hop.src_node_id == payee) = true
        · simp only [h4, if_true, Option.some.injEq] at hmsg
          simp [get_route, h1, h2, h3, h4, ← hmsg]
        · simp only [h4, if_false] at hmsg
          have hmul : final_value_msat * 3 ≤ U64_MAX := by
            unfold MAX_VALUE_MSAT at h2
            unfold U64_MAX
            omega
          rcases hf : first_hops with _ | hops
          · rw [hf] at hmsg
            simp at hmsg
          · rw [hf] at hmsg
            by_cases h5 : hops.any (fun ch => ch.remote_network_id == our_node_id) = true
            · simp only [Bool.false_eq_true, if_false, h5, if_true,
                Option.some.injEq] at hmsg
              have hbuild := build_first_hop_targets_counterparty_error our_node_id hops []
                (hscid hops hf) h5
              simp [get_route, h1, h2, h3, h4, umul, hmul, hbuild, bind, Except.bind, ← hmsg]
            · simp only [Bool.false_eq_true, if_false, h5] at hmsg
              by_cases h6 : hops.isEmpty = true
              · simp only [Bool.false_eq_true, if_false, h6, if_true,
                  Option.some.injEq] at hmsg
                have hnil : hops = [] := by
                  cases hops
                  · rfl
                  · simp at h6
                subst hnil
                simp [get_route, h1, h2, h3, h4, umul, hmul, build_first_hop_targets,
                  bind, Except.bind, pure, Except.pure, ← hmsg]
              · simp [h6] at hmsg

/-- C4: for a candidate edge that passes every admission check (distinct
endpoints, resolvable liquidity, fragmentation heuristic, `htlc_minimum`
admission) against an existing `dist` entry `old`, `add_entry` replaces the
entry with the candidate and pushes a `RouteGraphNode` exactly when the
saturating sum of the candidate's `total_fee_msat` and the channel's
`htlc_minimum_msat` is strictly below the saturating sum of the stored
entry's `total_fee_msat` and its stored `htlc_minimum_msat`, and otherwise
leaves `dist` and the frontier unchanged (only the liquidity memo may have
been added). -/
theorem add_entry_relaxation_iff
    (our_node_id : Nat) (network : NetworkGraph) (allow_mpp : Bool)
    (recommended final collected chan_id src dest : Nat) (dinfo : DirInfo)
    (capacity_sats : Option Nat) (chan_features : Features)
    (next_fee next_val : Nat) (st : SearchState)
    (old : PathBuildingHop) (L : Nat) (book1 : List (Nat × Nat))
    (avail minC amount use total lf : Nat)
    (hneq : src ≠ dest)
    (hliq : resolve_liquidity st.book chan_id capacity_sats dinfo = .ok (L, book1))
    (hsub : checked_sub L next_fee = some avail)
    (hmin : minimal_contribution allow_mpp recommended collected final = .ok minC)
    (hadd : checked_add (min avail next_val) next_fee = some amount)
    (hguard : avail ≥ minC ∧ amount ≥ dinfo.htlc_minimum_msat)
    (hold : mapGet st.dist src = some old)
    (hfee : hop_fee_and_total our_node_id src amount next_fee dinfo.fees
      old.src_lowest_inbound_fees = .ok (use, total))
    (hlf : uadd next_fee use = .ok lf) :
    add_entry our_node_id network allow_mpp recommended final collected chan_id src dest
        dinfo capacity_sats chan_features next_fee next_val st =
      .ok (if sat_add total dinfo.htlc_minimum_msat <
              sat_add old.total_fee_msat old.htlc_minimum_msat then
             { targets := ⟨src, total, lf, min avail next_val⟩ :: st.targets,
               dist := mapInsert st.dist src
                 { old with
                   next_hops_fee_msat := next_fee,
                   hop_use_fee_msat := use,
                   total_fee_msat := total,
                   route_hop := { pubkey := dest, node_features := Features.empty,
                                  short_channel_id := chan_id,
                                  channel_features := chan_features,
                                  fee_msat := 0,
                                  cltv_expiry_delta := dinfo.cltv_expiry_delta },
                   channel_fees := dinfo.fees,
                   htlc_minimum_msat := dinfo.htlc_minimum_msat },
               book := book1 }
           else
             { st with book := book1 }) := by
  unfold add_entry
  simp only [hneq, if_true, bind, Except.bind, hliq, hsub, hmin, hadd,
    get_or_insert_dist, hold, hfee, hlf, pure, Except.pure, ne_eq,
    not_false_eq_true]
  rw [if_pos hguard]
  split <;> rfl

/-- C4 witness: the relaxation applied at a concrete candidate (channel 7,
source 3, destination 2) against the stored entry `c4Old`; the candidate's
biased cost 2 + 5 beats the stored `u64::MAX`-saturated cost, so the entry is
replaced and a frontier node pushed. -/
theorem add_entry_relaxation_iff_witness :
    add_entry 1 c4Net false 300 100 0 7 3 2 c4Dinfo none Features.empty 0 300 c4St =
      .ok ⟨[⟨3, 2, 2, 300⟩], [(3, c4Updated)], [(7, 1000)]⟩ := by
  have h := add_entry_relaxation_iff 1 c4Net false 300 100 0 7 3 2 c4Dinfo none
    Features.empty 0 300 c4St c4Old 1000 [(7, 1000)] 1000 100 300 2 2 2
    (by decide) (by rfl) (by rfl) (by rfl) (by rfl) ⟨by decide, by decide⟩
    (by rfl) (by rfl) (by rfl)
  simpa using h

/-- C7: the fragmentation heuristic.  (i) With MPP allowed, under the
collector invariant `already_collected ≤ recommended` (and `recommended + 19`
a valid `u64`), the subtraction cannot underflow and the minimal contribution
is `(recommended - collected + 19) / 20`, which is exactly
`ceil((recommended - collected) / 20)` (bracketed below by its defining
inequalities); (ii) without MPP it is `final_value_msat`; (iii) the
collection loop performs a further iteration (hence further relaxations) only
while the collected value is strictly below `recommended_value_msat`. -/
theorem add_entry_minimal_contribution :
    (∀ recommended collected final : Nat, collected ≤ recommended →
        recommended + 19 ≤ U64_MAX →
        minimal_contribution true recommended collected final =
          .ok ((recommended - collected + 19) / 20) ∧
        recommended - collected ≤ 20 * ((recommended - collected + 19) / 20) ∧
        20 * ((recommended - collected + 19) / 20) < recommended - collected + 20) ∧
    (∀ recommended collected final : Nat,
        minimal_contribution false recommended collected final = .ok final) ∧
    (∀ (ctx : RouteCtx) (fuel collected : Nat) (paths : List PaymentPath)
        (book : List (Nat × Nat)),
        paths_collection ctx (fuel + 1) collected paths book =
          (do
            let st ← seed_iteration ctx collected book
            let inner_fuel := (ctx.network.nodes.length + ctx.network.channels.length +
              ctx.last_hops.length + ctx.first_hop_targets.length + 2) * 100000
            let (st', collected', paths', found_new_path) ←
              inner_loop ctx inner_fuel st collected paths
            if !ctx.allow_mpp then .ok (collected', paths')
            else if collected' ≥ ctx.recommended_value_msat ∨ found_new_path = false then
              .ok (collected', paths')
            else if collected' < ctx.recommended_value_msat then
              paths_collection ctx fuel collected' paths' st'.book
            else
              .ok (collected', paths'))) := by
  refine ⟨?_, ?_, ?_⟩
  · intro recommended collected final hle hbound
    have hsub : collected ≤ recommended := hle
    have hd : recommended - collected + 19 ≤ U64_MAX := by omega
    refine ⟨?_, ?_, ?_⟩
    · simp [minimal_contribution, usub, uadd, hsub, hd, bind, Except.bind,
        Except.map, Functor.map, pure, Except.pure]
    · omega
    · omega
  · intro recommended collected final
    rfl
  · intro ctx fuel collected paths book
    show (do
        let st ← seed_iteration ctx collected book
        let inner_fuel := (ctx.network.nodes.length + ctx.network.channels.length +
          ctx.last_hops.length + ctx.first_hop_targets.length + 2) * 100000
        let (st', collected', paths', found_new_path) ←
          inner_loop ctx inner_fuel st collected paths
        if !ctx.allow_mpp then .ok (collected', paths')
        else if collected' ≥ ctx.recommended_value_msat ∨ found_new_path = false then
          .ok (collected', paths')
        else
          paths_collection ctx fuel collected' paths' st'.book : Except RErr _) = _
    rcases hseed : seed_iteration ctx collected book with e | st
    · simp only [hseed, ebind_err]
    · simp only [hseed, ebind_ok]
      rcases hinner : inner_loop ctx ((ctx.network.nodes.length +
        ctx.network.channels.length + ctx.last_hops.length +
        ctx.first_hop_targets.length + 2) * 100000) st collected paths with
        e | ⟨st', collected', paths', found_new_path⟩
      · simp only [hinner, ebind_err]
      · simp only [hinner, ebind_ok]
        by_cases h1 : (!ctx.allow_mpp) = true
        · simp [h1]
        · by_cases h2 : collected' ≥ ctx.recommended_value_msat ∨ found_new_path = false
          · simp only [h1, Bool.false_eq_true, if_false, h2, if_true]
          · have hlt : collected' < ctx.recommended_value_msat := by
              push_neg at h2
              omega
            simp only [h1, Bool.false_eq_true, if_false, h2, hlt, if_true]

/-- C7 witness: the heuristic evaluated at recommended 300, collected 40,
final 100 — the MPP contribution is `ceil(260 / 20) = 13` and the single-path
contribution is the full 100. -/
theorem add_entry_minimal_contribution_witness :
    minimal_contribution true 300 40 100 = .ok 13 ∧
      minimal_contribution false 300 40 100 = .ok 100 :=
  ⟨(add_entry_minimal_contribution.1 300 40 100 (by decide) (by decide)).1,
   add_entry_minimal_contribution.2.1 300 40 100⟩

/-- `compute_fees` is monotone in the amount: success at a larger amount
gives success (with a no-larger fee) at any smaller amount. -/
theorem compute_fees_mono (a b : Nat) (f : RoutingFees) (fee : Nat)
    (hab : a ≤ b) (h : compute_fees b f = some fee) :
    ∃ fee', fee' ≤ fee ∧ compute_fees a f = some fee' := by
  rw [compute_fees_spec] at h ⊢
  split at h
  · rename_i hb
    rcases hb with ⟨hb1, hb2⟩
    injection h with h
    have ha1 : a * f.proportional_millionths ≤ U64_MAX :=
      le_trans (Nat.mul_le_mul_right _ hab) hb1
    have hdiv : (a * f.proportional_millionths) / 1000000 ≤
        (b * f.proportional_millionths) / 1000000 :=
      Nat.div_le_div_right (Nat.mul_le_mul_right _ hab)
    have ha2 : f.base_msat + (a * f.proportional_millionths) / 1000000 ≤ U64_MAX :=
      le_trans (Nat.add_le_add_left hdiv _) hb2
    refine ⟨f.base_msat + (a * f.proportional_millionths) / 1000000, ?_, ?_⟩
    · omega
    · rw [if_pos ⟨ha1, ha2⟩]
  · cases h

/-- Success shape of the recompute core: the transferred amount is the
maximum of `total + value` and the `htlc_minimum`, and the updated running
total satisfies `total1 + value = transferred`. -/
theorem recompute_core_ok_shape (v htlc_min f0 total t1 tt ff : Nat)
    (h : recompute_core v htlc_min f0 total = .ok (t1, tt, ff)) :
    t1 = max (total + v) htlc_min ∧ tt + v = t1 := by
  unfold recompute_core at h
  simp only [bind, Except.bind, uadd] at h
  by_cases h0 : total + v ≤ U64_MAX
  · simp only [h0, if_true] at h
    rcases hcs : checked_sub htlc_min (total + v) with _ | extra
    · rw [hcs] at h
      simp only [pure, Except.pure, Except.ok.injEq, Prod.mk.injEq] at h
      unfold checked_sub at hcs
      split at hcs
      · cases hcs
      · rename_i hgt
        obtain ⟨e1, e2, _⟩ := h
        subst e1; subst e2
        omega
    · rw [hcs] at h
      unfold checked_sub at hcs
      split at hcs
      · rename_i hle
        injection hcs with hcs
        by_cases ha : total + v + extra ≤ U64_MAX
        · by_cases hb : total + extra ≤ U64_MAX
          · by_cases hc : f0 + extra ≤ U64_MAX
            · simp only [ha, hb, hc, if_true, pure, Except.pure, Except.ok.injEq,
                Prod.mk.injEq] at h
              obtain ⟨e1, e2, _⟩ := h
              subst e1; subst e2
              omega
            · simp [ha, hb, hc] at h
          · simp [ha, hb] at h
        · simp [ha] at h
      · cases hcs
  · simp [h0] at h

/-- The recompute core can fail only with the unchecked-addition panic —
never with the `unreachable!()` message. -/
theorem recompute_core_not_unreachable (v htlc_min f0 total : Nat) :
    recompute_core v htlc_min f0 total ≠
      .error (.abort "internal error: entered unreachable code") := by
  intro h
  unfold recompute_core at h
  simp only [bind, Except.bind, uadd] at h
  by_cases h0 : total + v ≤ U64_MAX
  · simp only [h0, if_true] at h
    rcases hcs : checked_sub htlc_min (total + v) with _ | extra
    · rw [hcs] at h
      simp [pure, Except.pure] at h
    · rw [hcs] at h
      by_cases ha : total + v + extra ≤ U64_MAX
      · by_cases hb : total + extra ≤ U64_MAX
        · by_cases hc : f0 + extra ≤ U64_MAX
          · simp [ha, hb, hc, pure, Except.pure] at h
          · simp only [ha, hb, hc, if_true, if_false] at h
            simp at h
        · simp only [ha, hb, if_true, if_false] at h
          simp at h
      · simp only [ha, if_false] at h
        simp at h
  · simp only [h0, if_false] at h
    simp at h

/-- Value of a successful unchecked addition. -/
theorem uadd_ok_eq (a b c : Nat) (h : uadd a b = .ok c) : c = a + b := by
  unfold uadd at h
  split at h
  · injection h with h
    exact h.symm
  · cases h

/-- Message of a failing unchecked addition. -/
theorem uadd_err_eq (a b : Nat) (e : RErr) (h : uadd a b = .error e) :
    e = .abort "attempt to add with overflow" := by
  unfold uadd at h
  split at h
  · cases h
  · injection h with h
    exact h.symm

/-- The fee part of one recompute step, re-run with a no-larger transferred
amount, never reaches the `unreachable!()` branch, and on success its updated
total keeps the invariant `T + v ≤ T₀ + v₀`. -/
theorem recompute_fee_step_mono_safe
    (e : Bool) (fees : RoutingFees) (t10 tt0 t1 tt v₀ v : Nat)
    (u0 : Option Nat) (T0 : Nat)
    (h0 : recompute_fee_step e fees t10 tt0 = .ok (u0, T0))
    (ht : t1 ≤ t10) (h1 : tt + v = t1) (h2 : tt0 + v₀ = t10) :
    recompute_fee_step e fees t1 tt ≠
        .error (.abort "internal error: entered unreachable code") ∧
      ∀ u T, recompute_fee_step e fees t1 tt = .ok (u, T) → T + v ≤ T0 + v₀ := by
  unfold recompute_fee_step at h0 ⊢
  cases e
  · simp only [Bool.false_eq_true, if_false] at h0 ⊢
    rcases hcf0 : compute_fees t10 fees with _ | fee0
    · rw [hcf0] at h0
      cases h0
    · rw [hcf0] at h0
      simp only [bind, Except.bind] at h0 ⊢
      rcases hu0 : uadd tt0 fee0 with eu | T0'
      · rw [hu0] at h0
        cases h0
      · rw [hu0] at h0
        simp only [pure, Except.pure, Except.ok.injEq, Prod.mk.injEq] at h0
        obtain ⟨-, hT0⟩ := h0
        have hT0' := uadd_ok_eq _ _ _ hu0
        obtain ⟨fee, hfle, hcf2⟩ := compute_fees_mono t1 t10 fees fee0 ht hcf0
        rcases hu2 : uadd tt fee with eu2 | T2'
        · have heu := uadd_err_eq _ _ _ hu2
          rw [heu] at hu2
          constructor
          · intro hcontra
            simp [hcf2, hu2] at hcontra
          · intro u T hok
            simp [hcf2, hu2] at hok
        · have hT2' := uadd_ok_eq _ _ _ hu2
          constructor
          · intro hcontra
            simp [hcf2, hu2, pure, Except.pure] at hcontra
          · intro u T hok
            simp [hcf2, hu2, pure, Except.pure] at hok
            obtain ⟨-, hT⟩ := hok
            omega
  · simp only [if_true, pure, Except.pure, Except.ok.injEq, Prod.mk.injEq] at h0 ⊢
    obtain ⟨-, hT0⟩ := h0
    constructor
    · intro hcontra
      cases hcontra
    · intro u T hok
      obtain ⟨-, hT⟩ := hok
      omega

/-- One recompute step, re-run with a smaller value and a no-larger running
total, never reaches the `unreachable!()` branch, and on success its updated
total keeps the invariant `T + v ≤ T₀ + v₀`. -/
theorem recompute_step_mono_safe
    (v₀ v total₀ total : Nat) (e : Bool) (succ₀ succ : Option Nat)
    (cur cur₀' : PathBuildingHop) (T₀ : Nat)
    (h0 : recompute_step v₀ e succ₀ cur total₀ = .ok (cur₀', T₀))
    (_hv : v ≤ v₀) (htot : total + v ≤ total₀ + v₀) :
    recompute_step v e succ cur total ≠
        .error (.abort "internal error: entered unreachable code") ∧
      ∀ cur' T, recompute_step v e succ cur total = .ok (cur', T) →
        T + v ≤ T₀ + v₀ := by
  unfold recompute_step at h0 ⊢
  simp only [bind, Except.bind] at h0 ⊢
  split at h0
  · exact absurd h0 (by simp)
  · rename_i trip0 hc0
    obtain ⟨t10, tt0, ff0⟩ := trip0
    obtain ⟨hshape0, htt0⟩ := recompute_core_ok_shape _ _ _ _ _ _ _ hc0
    split at h0
    · exact absurd h0 (by simp)
    · rename_i pr0 hf0
      obtain ⟨u0, T0'⟩ := pr0
      simp only [pure, Except.pure, Except.ok.injEq, Prod.mk.injEq] at h0
      obtain ⟨-, hT0'⟩ := h0
      generalize hc2 : recompute_core v cur.htlc_minimum_msat
          (match succ with | none => 0 | some u => u) total = res2
      rcases res2 with e2 | ⟨t1, tt, ff⟩
      · constructor
        · intro hcontra
          simp at hcontra
          exact recompute_core_not_unreachable _ _ _ _ (by rw [hc2, hcontra])
        · intro cur' T hok
          simp at hok
      · obtain ⟨hshape2, htt2⟩ := recompute_core_ok_shape _ _ _ _ _ _ _ hc2
        have ht1le : t1 ≤ t10 := by
          rw [hshape2, hshape0]
          exact max_le_max htot (le_refl _)
        obtain ⟨hne, hinv⟩ := recompute_fee_step_mono_safe e cur.channel_fees t10 tt0
          t1 tt v₀ v u0 T0' hf0 ht1le htt2 htt0
        rcases hf2 : recompute_fee_step e cur.channel_fees t1 tt with e3 | ⟨u2, T2⟩
        · constructor
          · intro hcontra
            simp [hf2] at hcontra
            exact hne (by rw [hf2, hcontra])
          · intro cur' T hok
            simp [hf2] at hok
        · constructor
          · intro hcontra
            simp [hf2, pure, Except.pure] at hcontra
          · intro cur' T hok
            simp only [hf2, pure, Except.pure, Except.ok.injEq, Prod.mk.injEq] at hok
            obtain ⟨-, hT⟩ := hok
            have := hinv u2 T2 hf2
            omega

/-- The recompute walk, re-run with a smaller value under the running-total
invariant, never aborts through the `unreachable!()` branch. -/
theorem recompute_go_mono_safe :
    ∀ (hs : List PathBuildingHop) (total₀ total v₀ v : Nat) (succ₀ succ : Option Nat)
      (out₀ : List PathBuildingHop × Nat),
      recompute_go v₀ hs total₀ succ₀ = .ok out₀ → v ≤ v₀ →
      total + v ≤ total₀ + v₀ →
      recompute_go v hs total succ ≠
        .error (.abort "internal error: entered unreachable code") := by
  intro hs
  induction hs with
  | nil =>
    intro total₀ total v₀ v succ₀ succ out₀ h0 hv htot hcontra
    simp [recompute_go] at hcontra
  | cons cur rest ih =>
    intro total₀ total v₀ v succ₀ succ out₀ h0 hv htot hcontra
    simp only [recompute_go, bind, Except.bind] at h0 hcontra
    rcases hstep0 : recompute_step v₀ rest.isEmpty succ₀ cur total₀ with e0 | ⟨cur0', T0⟩
    · simp [hstep0] at h0
    · rcases hgo0 : recompute_go v₀ rest T0 (some cur0'.hop_use_fee_msat) with e0 | out0'
      · simp [hstep0, hgo0] at h0
      · obtain ⟨hne, hinv⟩ := recompute_step_mono_safe v₀ v total₀ total rest.isEmpty
          succ₀ succ cur cur0' T0 hstep0 hv htot
        rcases hstep2 : recompute_step v rest.isEmpty succ cur total with e2 | ⟨cur2', T2⟩
        · simp [hstep2] at hcontra
          exact hne (by rw [hstep2, hcontra])
        · rcases hgo2 : recompute_go v rest T2 (some cur2'.hop_use_fee_msat) with e3 | out2
          · simp [hstep2, hgo2] at hcontra
            exact ih T0 T2 v₀ v (some cur0'.hop_use_fee_msat)
              (some cur2'.hop_use_fee_msat) out0' hgo0 hv
              (hinv cur2' T2 hstep2) (by rw [hgo2, hcontra])
          · simp [hstep2, hgo2, pure, Except.pure] at hcontra

/-- C6 (amended): `get_route` can panic on overflow for extreme inputs (see
the counterexample), but the fee computations themselves saturate and the
recompute's `unreachable!()` is safe when the value only shrinks:
(i) a `compute_fees` overflow in `add_entry`'s fee block yields the
`u64::MAX` sentinel rather than a panic; (ii) a `u64::MAX`-sentinel candidate
never wins the relaxation cost comparison; (iii) re-running
`update_value_and_recompute_fees` with a value not exceeding one at which it
previously succeeded never aborts through the `unreachable!()` overflow
branch. -/
theorem add_entry_overflow_saturation :
    (∀ (our_node_id src_node_id amount next_fee : Nat) (fees lowest : RoutingFees),
        src_node_id ≠ our_node_id → compute_fees amount fees = none →
        hop_fee_and_total our_node_id src_node_id amount next_fee fees lowest =
          .ok (0, U64_MAX)) ∧
    (∀ m a b : Nat, ¬ (sat_add U64_MAX m < sat_add a b)) ∧
    (∀ (p : PaymentPath) (v₀ : Nat) (q : PaymentPath) (v : Nat),
        p.update_value_and_recompute_fees v₀ = .ok q → v ≤ v₀ →
        p.update_value_and_recompute_fees v ≠
          .error (.abort "internal error: entered unreachable code")) := by
  refine ⟨?_, ?_, ?_⟩
  · intro our_node_id src_node_id amount next_fee fees lowest hsrc hcf
    unfold hop_fee_and_total
    simp [hsrc, hcf, pure, Except.pure]
  · intro m a b
    have h1 : sat_add U64_MAX m = U64_MAX := by
      unfold sat_add checked_add
      split
      · rename_i c hc
        split at hc
        · injection hc with hc
          omega
        · cases hc
      · rfl
    have h2 : sat_add a b ≤ U64_MAX := by
      unfold sat_add checked_add
      split
      · rename_i c hc
        split at hc
        · injection hc with hc
          omega
        · cases hc
      · exact le_refl _
    omega
  · intro p v₀ q v h0 hv hcontra
    unfold PaymentPath.update_value_and_recompute_fees at h0 hcontra
    rcases hl : p.hops.getLast? with _ | last
    · rw [hl] at h0
      cases h0
    · rw [hl] at h0
      rw [hl] at hcontra
      simp only [] at h0 hcontra
      by_cases hle0 : v₀ ≤ last.route_hop.fee_msat
      · rw [if_pos hle0] at h0
        have hle2 : v ≤ last.route_hop.fee_msat := le_trans hv hle0
        rw [if_pos hle2] at hcontra
        simp only [bind, Except.bind] at h0 hcontra
        rcases hgo0 : recompute_go v₀ p.hops.reverse 0 none with e0 | out0
        · simp [hgo0] at h0
        · rcases hgo2 : recompute_go v p.hops.reverse 0 none with e2 | out2
          · simp [hgo2] at hcontra
            exact recompute_go_mono_safe p.hops.reverse 0 0 v₀ v none none out0 hgo0 hv
              (by omega) (by rw [hgo2, hcontra])
          · rcases out2 with ⟨rev2, T2⟩
            simp [hgo2, pure, Except.pure] at hcontra
      · rw [if_neg hle0] at h0
        cases h0

/-- C6 witness: part (iii) applied at the concrete path `[c8bHop]`, whose
update at value 10 succeeds, re-run at the smaller value 7. -/
theorem add_entry_overflow_saturation_witness :
    (PaymentPath.mk [c8bHop]).update_value_and_recompute_fees 7 ≠
      .error (.abort "internal error: entered unreachable code") :=
  add_entry_overflow_saturation.2.2 ⟨[c8bHop]⟩ 10 ⟨[c8bHopQ]⟩ 7 (by rfl) (by decide)

/-- C3 witness: the first check at a concrete input — routing to ourselves on
`c1Graph` yields exactly the first error message. -/
theorem get_route_validation_order_witness :
    get_route 1 c1Graph 1 none none [] 5 7 =
      .error (.lightning "Cannot generate a route to ourselves") :=
  get_route_validation_order 1 1 c1Graph none none [] 5 7
    "Cannot generate a route to ourselves"
    (by intro hops h; cases h) (by rfl)

/-- A successful monadic bind over `Except` factors through a successful
intermediate value. -/
theorem ebind_ok_elim {α β : Type} {m : Except RErr α} {f : α → Except RErr β}
    {b : β} (h : m >>= f = .ok b) : ∃ a, m = .ok a ∧ f a = .ok b := by
  cases m with
  | ok a => exact ⟨a, rfl, h⟩
  | error e => rw [ebind_err] at h; cases h

/-- Success of the unchecked subtraction means no underflow, and the result
is the difference. -/
theorem usub_ok_eq (a b c : Nat) (h : usub a b = .ok c) : b ≤ a ∧ c = a - b := by
  unfold usub at h
  split at h
  · rename_i hle
    injection h with h2
    exact ⟨hle, h2.symm⟩
  · cases h

/-- A successful `get_value_msat` returns exactly the terminal fee. -/
theorem get_value_ok_eq (p : PaymentPath) (x : Nat) (h : p.get_value_msat = .ok x) :
    path_terminal_fee p = x := by
  unfold PaymentPath.get_value_msat at h
  unfold path_terminal_fee
  split at h
  · cases h
  · rename_i hh heq
    rw [heq]
    injection h

/-- Permuted path lists carry the same total value. -/
theorem perm_paths_sum {l1 l2 : List PaymentPath} (h : List.Perm l1 l2) :
    paths_terminal_sum l1 = paths_terminal_sum l2 :=
  (h.map path_terminal_fee).sum_eq

/-- A successful `mapM` over `Except` preserves length, and every output
element is the image of some input element. -/
theorem mapM_ok_facts {α β : Type} (f : α → Except RErr β) (l : List α) :
    ∀ ys : List β, l.mapM f = .ok ys →
      ys.length = l.length ∧ ∀ y ∈ ys, ∃ x ∈ l, f x = .ok y := by
  induction l with
  | nil =>
    intro ys h
    simp only [List.mapM_nil, pure, Except.pure] at h
    cases h
    simp
  | cons a as ih =>
    intro ys h
    rw [List.mapM_cons] at h
    obtain ⟨b, hb, h⟩ := ebind_ok_elim h
    obtain ⟨bs, hbs, h⟩ := ebind_ok_elim h
    simp only [pure, Except.pure] at h
    cases h
    obtain ⟨hlen, hmem⟩ := ih bs hbs
    refine ⟨by simp [hlen], ?_⟩
    intro y hy
    rcases List.mem_cons.mp hy with hy | hy
    · exact ⟨a, List.mem_cons_self a as, hy ▸ hb⟩
    · obtain ⟨x, hx, hfx⟩ := hmem y hy
      exact ⟨x, List.mem_cons_of_mem a hx, hfx⟩

/-- The keying pass of `sort_by_key_m` tags each element with its key:
projecting the tags away returns the input list. -/
theorem mapM_pair_snd {α : Type} (key : α → Except RErr Nat) (l : List α) :
    ∀ keyed : List (Nat × α),
      l.mapM (fun x => do
        let k ← key x
        pure (k, x)) = .ok keyed →
      keyed.map Prod.snd = l := by
  induction l with
  | nil =>
    intro keyed h
    simp only [List.mapM_nil, pure, Except.pure] at h
    cases h
    rfl
  | cons a as ih =>
    intro keyed h
    rw [List.mapM_cons] at h
    obtain ⟨kv, hkv, h⟩ := ebind_ok_elim h
    obtain ⟨kvs, hkvs, h⟩ := ebind_ok_elim h
    simp only [pure, Except.pure] at h
    cases h
    obtain ⟨k, hk, hkv2⟩ := ebind_ok_elim hkv
    simp only [pure, Except.pure] at hkv2
    cases hkv2
    simp [ih kvs hkvs]

/-- A successful `sort_by_key_m` permutes its input. -/
theorem sort_by_key_m_perm {α : Type} (key : α → Except RErr Nat) (l l2 : List α)
    (h : sort_by_key_m key l = .ok l2) : List.Perm l2 l := by
  unfold sort_by_key_m at h
  split at h
  · cases h; exact List.Perm.refl _
  · cases h; exact List.Perm.refl _
  · obtain ⟨keyed, hkeyed, h⟩ := ebind_ok_elim h
    simp only [pure, Except.pure] at h
    cases h
    have hsnd := mapM_pair_snd key _ keyed hkeyed
    have hperm := (List.perm_insertionSort
      (fun a b : Nat × α => a.1 ≤ b.1) keyed).map Prod.snd
    rw [hsnd] at hperm
    exact hperm

/-- Rotating a path list preserves its total value and its length. -/
theorem rotation_facts (L : List PaymentPath) (i : Nat) :
    paths_terminal_sum (L.drop i ++ L.take i) = paths_terminal_sum L ∧
      (L.drop i ++ L.take i).length = L.length := by
  constructor
  · unfold paths_terminal_sum
    rw [List.map_append, List.sum_append, Nat.add_comm, ← List.sum_append,
      ← List.map_append, List.take_append_drop]
  · rw [List.length_append, List.length_drop, List.length_take]
    omega

/-- Converting a `PaymentPath` to its realized `RouteHop` list preserves the
terminal fee. -/
theorem route_path_tf_map (pp : PaymentPath) :
    route_path_terminal_fee (pp.hops.map (fun h => h.route_hop)) =
      path_terminal_fee pp := by
  unfold route_path_terminal_fee path_terminal_fee
  rw [List.getLast?_map]
  cases pp.hops.getLast? <;> rfl

/-- A path produced by `update_value_and_recompute_fees` carries at least the
requested value: its terminal fee is `max value htlc_minimum`. -/
theorem update_value_terminal (p q : PaymentPath) (v : Nat)
    (h : p.update_value_and_recompute_fees v = .ok q) :
    v ≤ path_terminal_fee q := by
  unfold PaymentPath.update_value_and_recompute_fees at h
  split at h
  · cases h
  · rename_i last hlast
    split at h
    · rename_i hle
      obtain ⟨⟨rev2, T⟩, hgo, h⟩ := ebind_ok_elim h
      simp only [pure, Except.pure] at h
      cases h
      have hne : p.hops ≠ [] := by
        intro he
        rw [he] at hlast
        cases hlast
      have hrevne : p.hops.reverse ≠ [] := by
        simpa [List.reverse_eq_nil_iff] using hne
      obtain ⟨c, rest, hcr⟩ := List.exists_cons_of_ne_nil hrevne
      rw [hcr] at hgo
      rw [recompute_go] at hgo
      obtain ⟨⟨c1, total1⟩, hstep, hgo⟩ := ebind_ok_elim hgo
      obtain ⟨⟨rest2, Tf⟩, hrest, hgo⟩ := ebind_ok_elim hgo
      simp only [pure, Except.pure] at hgo
      cases hgo
      unfold recompute_step at hstep
      obtain ⟨⟨t1, totc, fees1⟩, hcore, hstep⟩ := ebind_ok_elim hstep
      obtain ⟨⟨use_fee, totalF⟩, hfs, hstep⟩ := ebind_ok_elim hstep
      simp only [pure, Except.pure] at hstep
      have hshape := recompute_core_ok_shape v c.htlc_minimum_msat 0 0 t1 totc fees1 hcore
      have hfee : c1.route_hop.fee_msat = t1 := by
        cases use_fee with
        | none =>
          injection hstep with h1
          injection h1 with ha hb
          rw [← ha]
          simp
        | some u =>
          injection hstep with h1
          injection h1 with ha hb
          rw [← ha]
          simp
      unfold path_terminal_fee
      simp only [List.getLast?_reverse, List.head?_cons, hfee]
      omega
    · cases h

/-- Bookkeeping of the retain pass: the returned remaining overpaid amount
never grows, and exactly the dropped value is removed from the total. -/
theorem retain_paths_sum (l : List PaymentPath) : ∀ (n ov : Nat)
    (kept : List PaymentPath) (ov2 : Nat),
    retain_paths l n ov = .ok (kept, ov2) →
    ov2 ≤ ov ∧ paths_terminal_sum kept + (ov - ov2) = paths_terminal_sum l := by
  induction l with
  | nil =>
    intro n ov kept ov2 h
    unfold retain_paths at h
    injection h with h2
    injection h2 with h3 h4
    subst h3
    subst h4
    simp [paths_terminal_sum]
  | cons p rest ih =>
    intro n ov kept ov2 h
    unfold retain_paths at h
    split at h
    · obtain ⟨⟨rest2, ovx⟩, hr, h⟩ := ebind_ok_elim h
      injection h with h2
      injection h2 with h3 h4
      subst h3
      subst h4
      obtain ⟨h1, h2⟩ := ih n ov rest2 ovx hr
      refine ⟨h1, ?_⟩
      simp only [paths_terminal_sum, List.map_cons, List.sum_cons] at *
      omega
    · obtain ⟨v, hv, h⟩ := ebind_ok_elim h
      have hvp := get_value_ok_eq p v hv
      split at h
      · rename_i hle
        obtain ⟨h1, h2⟩ := ih (n - 1) (ov - v) kept ov2 h
        refine ⟨by omega, ?_⟩
        simp only [paths_terminal_sum, List.map_cons, List.sum_cons] at *
        omega
      · rename_i hgt
        obtain ⟨⟨rest2, ovx⟩, hr, h⟩ := ebind_ok_elim h
        injection h with h2
        injection h2 with h3 h4
        subst h3
        subst h4
        obtain ⟨h1, h2⟩ := ih n ov rest2 ovx hr
        refine ⟨h1, ?_⟩
        simp only [paths_terminal_sum, List.map_cons, List.sum_cons] at *
        omega

/-- When the accumulated value strictly exceeds the target,
`reduce_route` brings the total back to exactly the target or above it. -/
theorem reduce_route_sum (final : Nat) (cur : List PaymentPath) (agg : Nat)
    (out : List PaymentPath) (h : reduce_route final cur agg = .ok out)
    (hagg : agg = paths_terminal_sum cur) (hgt : final < agg) :
    final ≤ paths_terminal_sum out := by
  unfold reduce_route at h
  obtain ⟨sorted, hsort, h⟩ := ebind_ok_elim h
  obtain ⟨⟨kept, ov2⟩, hret, h⟩ := ebind_ok_elim h
  simp only [] at h
  have hsum : paths_terminal_sum sorted = paths_terminal_sum cur :=
    perm_paths_sum (sort_by_key_m_perm _ cur sorted hsort)
  obtain ⟨hov2, hkeq⟩ := retain_paths_sum sorted sorted.length (agg - final) kept ov2 hret
  split at h
  · rename_i h0
    injection h with h2
    subst h2
    omega
  · split at h
    · obtain ⟨sorted2, hsort2, h⟩ := ebind_ok_elim h
      have hsum2 : paths_terminal_sum sorted2 = paths_terminal_sum kept :=
        perm_paths_sum (sort_by_key_m_perm _ kept sorted2 hsort2)
      rcases sorted2 with _ | ⟨expensive, rest2⟩
      · cases h
      · obtain ⟨v, hv, h⟩ := ebind_ok_elim h
        obtain ⟨newv, hsub, h⟩ := ebind_ok_elim h
        obtain ⟨exp2, hupd, h⟩ := ebind_ok_elim h
        injection h with h2
        subst h2
        have hvp := get_value_ok_eq expensive v hv
        obtain ⟨hle, hnv⟩ := usub_ok_eq v ov2 newv hsub
        have hterm := update_value_terminal expensive exp2 newv hupd
        simp only [paths_terminal_sum, List.map_cons, List.sum_cons] at *
        omega
    · cases h

/-- The accumulation step of the composer: a successfully drawn route either
delivers at least the target value, or is the whole rotated path list. -/
theorem route_accum_sum (final : Nat) (todo : List PaymentPath) :
    ∀ (cur out : List PaymentPath) (agg : Nat),
    route_accum final todo cur agg = .ok out → agg = paths_terminal_sum cur →
    final ≤ paths_terminal_sum out ∨ out = cur ++ todo := by
  induction todo with
  | nil =>
    intro cur out agg h _
    unfold route_accum at h
    injection h with h2
    subst h2
    right
    simp
  | cons p rest ih =>
    intro cur out agg h hagg
    unfold route_accum at h
    obtain ⟨v, hv, h⟩ := ebind_ok_elim h
    obtain ⟨agg2, hadd, h⟩ := ebind_ok_elim h
    have hvp := get_value_ok_eq p v hv
    have hagg2 := uadd_ok_eq agg v agg2 hadd
    have hsum : agg2 = paths_terminal_sum (cur ++ [p]) := by
      simp only [paths_terminal_sum, List.map_append, List.sum_append,
        List.map_cons, List.sum_cons, List.map_nil, List.sum_nil] at *
      omega
    split at h
    · rename_i hgtf
      exact Or.inl (reduce_route_sum final (cur ++ [p]) agg2 out h hsum hgtf)
    · rcases ih (cur ++ [p]) out agg2 h hsum with hl | hr
      · exact Or.inl hl
      · right
        rw [hr]
        simp

/-- The path-construction loop only grows the collected value together with
the paths: if the collected value was covered by the total value of the
paths, it still is afterwards (each appended path carries at least its
booked contribution). -/
theorem inner_loop_sum (ctx : RouteCtx) (fuel : Nat) : ∀ (st : SearchState)
    (collected : Nat) (paths : List PaymentPath) (st2 : SearchState)
    (collected2 : Nat) (paths2 : List PaymentPath) (flag : Bool),
    inner_loop ctx fuel st collected paths = .ok (st2, collected2, paths2, flag) →
    collected ≤ paths_terminal_sum paths → collected2 ≤ paths_terminal_sum paths2 := by
  induction fuel with
  | zero =>
    intro st collected paths st2 collected2 paths2 flag h hinv
    simp [inner_loop] at h
  | succ fuel ih =>
    intro st collected paths st2 collected2 paths2 flag h hinv
    rw [inner_loop] at h
    split at h
    · injection h with h2
      injection h2 with h3 h4
      injection h4 with h5 h6
      injection h6 with h7 h8
      subst h5
      subst h7
      exact hinv
    · rename_i rgn rest_targets hpop
      split at h
      · rcases hmr : mapRemove st.dist ctx.our_node_id with ⟨eopt, dist0⟩
        simp only [] at h
        rw [hmr] at h
        simp only [] at h
        rcases eopt with _ | new_entry
        · cases h
        · simp only [] at h
          obtain ⟨⟨acc0, dist1⟩, hwalk, h⟩ := ebind_ok_elim h
          simp only [] at h
          rcases acc0 with _ | ⟨lastHop, tl⟩
          · rw [ebind_err] at h
            cases h
          · simp only [] at h
            rw [pure_bind] at h
            obtain ⟨pp, hupd, h⟩ := ebind_ok_elim h
            obtain ⟨⟨book2, completed⟩, hded, h⟩ := ebind_ok_elim h
            simp only [] at h
            split at h
            · obtain ⟨coll2, haddc, h⟩ := ebind_ok_elim h
              injection h with h2
              injection h2 with h3 h4
              injection h4 with h5 h6
              injection h6 with h7 h8
              subst h5
              subst h7
              have hterm := update_value_terminal _ pp _ hupd
              have hc2 := uadd_ok_eq collected rgn.value_contribution_msat coll2 haddc
              simp only [paths_terminal_sum, List.map_append, List.sum_append,
                List.map_cons, List.sum_cons, List.map_nil, List.sum_nil]
              simp only [paths_terminal_sum] at hinv
              omega
            · injection h with h2
              injection h2 with h3 h4
              injection h4 with h5 h6
              injection h6 with h7 h8
              subst h5
              subst h7
              exact hinv
      · split at h
        · exact ih _ _ _ _ _ _ _ h hinv
        · obtain ⟨st3, hadd, h⟩ := ebind_ok_elim h
          exact ih _ _ _ _ _ _ _ h hinv

/-- The collection loop preserves coverage of the collected value by the
total value of the collected paths. -/
theorem paths_collection_sum (ctx : RouteCtx) (fuel : Nat) : ∀ (collected : Nat)
    (paths : List PaymentPath) (book : List (Nat × Nat)) (collected2 : Nat)
    (paths2 : List PaymentPath),
    paths_collection ctx fuel collected paths book = .ok (collected2, paths2) →
    collected ≤ paths_terminal_sum paths → collected2 ≤ paths_terminal_sum paths2 := by
  induction fuel with
  | zero =>
    intro collected paths book collected2 paths2 h hinv
    simp [paths_collection] at h
  | succ fuel ih =>
    intro collected paths book collected2 paths2 h hinv
    rw [paths_collection] at h
    obtain ⟨st, hseed, h⟩ := ebind_ok_elim h
    obtain ⟨⟨st2, coll2, paths3, flag⟩, hil, h⟩ := ebind_ok_elim h
    simp only [] at h
    have hinv2 := inner_loop_sum ctx _ st collected paths st2 coll2 paths3 flag hil hinv
    split at h
    · injection h with h2
      injection h2 with h3 h4
      subst h3
      subst h4
      exact hinv2
    · split at h
      · injection h with h2
        injection h2 with h3 h4
        subst h3
        subst h4
        exact hinv2
      · exact ih coll2 paths3 st2.book collected2 paths2 h hinv2

/-- Attaching the payee features to the terminal hops preserves each path's
terminal fee and the number of paths. -/
theorem overwrite_mapM (features : Features) (sel : List (List RouteHop)) :
    ∀ sel2 : List (List RouteHop),
      sel.mapM (fun path =>
        match path.getLast? with
        | none =>
          (Except.error (RErr.abort "called unwrap on a None value") :
            Except RErr (List RouteHop))
        | some last =>
            pure (path.dropLast ++
              [{ last with node_features := features.to_context }])) = .ok sel2 →
      sel2.map route_path_terminal_fee = sel.map route_path_terminal_fee ∧
        sel2.length = sel.length := by
  induction sel with
  | nil =>
    intro sel2 h
    simp only [List.mapM_nil, pure, Except.pure] at h
    cases h
    exact ⟨rfl, rfl⟩
  | cons a as ih =>
    intro sel2 h
    rw [List.mapM_cons] at h
    obtain ⟨b, hb, h⟩ := ebind_ok_elim h
    obtain ⟨bs, hbs, h⟩ := ebind_ok_elim h
    simp only [pure, Except.pure] at h
    cases h
    obtain ⟨hmap, hlen⟩ := ih bs hbs
    rcases hl : a.getLast? with _ | last
    · rw [hl] at hb
      cases hb
    · rw [hl] at hb
      simp only [pure, Except.pure] at hb
      cases hb
      constructor
      · simp only [List.map_cons, hmap]
        congr 1
        unfold route_path_terminal_fee
        rw [List.getLast?_concat, hl]
      · simp [hlen]

/-- Realizing a drawn route as `RouteHop` lists preserves the total of the
terminal fees. -/
theorem selected_bridge (best : List PaymentPath) :
    ((best.map (fun pp => pp.hops.map (fun hp => hp.route_hop))).map
        route_path_terminal_fee).sum = paths_terminal_sum best := by
  unfold paths_terminal_sum
  rw [List.map_map]
  congr 1
  simp only [Function.comp_def]
  simp only [route_path_tf_map]

/-- The composer keeps the delivered value at or above the target whenever
the collected paths cover it — except possibly when the truncation to 50
paths kicks in, in which case the returned route has exactly 50 paths. -/
theorem route_compose_sum (final : Nat) (payee_features : Option Features)
    (paths0 : List PaymentPath) (r : Route)
    (h : route_compose final payee_features paths0 = .ok r)
    (hcov : final ≤ paths_terminal_sum paths0) :
    final ≤ r.terminal_fees_sum ∨ r.paths.length = 50 := by
  unfold route_compose at h
  obtain ⟨paths_s, hsort, h1⟩ := ebind_ok_elim h
  clear h
  simp only [] at h1
  obtain ⟨drawn, hdrawn, h2⟩ := ebind_ok_elim h1
  clear h1
  obtain ⟨drawn2, hsort2, h3⟩ := ebind_ok_elim h2
  clear h2
  split at h3
  · cases h3
  rename_i best rest2
  have hps : paths_terminal_sum paths_s = paths_terminal_sum paths0 :=
    perm_paths_sum (sort_by_key_m_perm _ _ _ hsort)
  set TL := (if paths_s.length > 50 then List.take 50 paths_s else paths_s) with hTL
  have hTLfacts : final ≤ paths_terminal_sum TL ∨ TL.length = 50 := by
    by_cases h50 : paths_s.length > 50
    · right
      rw [hTL, if_pos h50, List.length_take]
      omega
    · left
      rw [hTL, if_neg h50]
      omega
  obtain ⟨hdlen, hdmem⟩ := mapM_ok_facts _ _ drawn hdrawn
  have hbmem : best ∈ drawn :=
    (sort_by_key_m_perm _ drawn (best :: rest2) hsort2).mem_iff.mp
      (List.mem_cons_self _ _)
  obtain ⟨i, hi, hacc⟩ := hdmem best hbmem
  have hbest : final ≤ paths_terminal_sum best ∨
      (paths_terminal_sum best = paths_terminal_sum TL ∧ best.length = TL.length) := by
    rcases route_accum_sum final _ [] best 0 hacc rfl with hle | heq
    · exact Or.inl hle
    · right
      rw [heq, List.nil_append]
      exact rotation_facts TL i
  have hfinal : Route.terminal_fees_sum r = paths_terminal_sum best ∧
      r.paths.length = best.length := by
    cases payee_features with
    | none =>
      simp only [] at h3
      rw [pure_bind] at h3
      simp only [pure, Except.pure] at h3
      cases h3
      refine ⟨?_, by simp⟩
      unfold Route.terminal_fees_sum
      exact selected_bridge best
    | some features =>
      simp only [] at h3
      obtain ⟨sel2, hsel, h4⟩ := ebind_ok_elim h3
      simp only [pure, Except.pure] at h4
      cases h4
      obtain ⟨hmap, hlen⟩ := overwrite_mapM features _ sel2 hsel
      constructor
      · unfold Route.terminal_fees_sum
        rw [show (⟨sel2⟩ : Route).paths = sel2 from rfl, hmap]
        exact selected_bridge best
      · rw [show (⟨sel2⟩ : Route).paths = sel2 from rfl, hlen, List.length_map]
  rcases hbest with hle | ⟨hseq, hleq⟩
  · left
    rw [hfinal.1]
    exact hle
  · rcases hTLfacts with hTLs | hTL50
    · left
      rw [hfinal.1, hseq]
      exact hTLs
    · right
      rw [hfinal.2, hleq, hTL50]

/-- C1 (amended): whenever `get_route` succeeds, either the sum over all
paths of the terminal hop's `fee_msat` is at least the requested
`final_value_msat`, or the returned route consists of exactly 50 paths (the
composer's truncation cap, the only case in which the collected value can be
cut below the target); the sum need not equal `final_value_msat`
(see the counterexample). -/
theorem get_route_delivers_at_least_final_value
    (our_node_id : Nat) (network : NetworkGraph) (payee : Nat)
    (payee_features : Option Features) (first_hops : Option (List ChannelDetails))
    (last_hops : List RouteHint) (final_value_msat final_cltv : Nat) (r : Route)
    (h : get_route our_node_id network payee payee_features first_hops last_hops
        final_value_msat final_cltv = .ok r) :
    final_value_msat ≤ r.terminal_fees_sum ∨ r.paths.length = 50 := by
  unfold get_route at h
  split at h
  · cases h
  split at h
  · cases h
  split at h
  · cases h
  split at h
  · cases h
  obtain ⟨recommended, hrec, h⟩ := ebind_ok_elim h
  simp only [] at h
  rcases first_hops with _ | fhops
  · rw [pure_bind] at h
    simp only [] at h
    obtain ⟨⟨collected, paths0⟩, hcoll, h⟩ := ebind_ok_elim h
    simp only [] at h
    split at h
    · cases h
    split at h
    · cases h
    rename_i hlen0 hcollge
    exact route_compose_sum _ _ _ _ h
      (le_trans (Nat.not_lt.mp hcollge)
        (paths_collection_sum _ _ 0 [] [] collected paths0 hcoll (by
          simp [paths_terminal_sum])))
  · obtain ⟨tgts, htgts, h⟩ := ebind_ok_elim h
    split at h
    · rw [ebind_err] at h
      cases h
    rw [pure_bind] at h
    obtain ⟨⟨collected, paths0⟩, hcoll, h⟩ := ebind_ok_elim h
    simp only [] at h
    split at h
    · cases h
    split at h
    · cases h
    rename_i hlen0 hcollge
    exact route_compose_sum _ _ _ _ h
      (le_trans (Nat.not_lt.mp hcollge)
        (paths_collection_sum _ _ 0 [] [] collected paths0 hcoll (by
          simp [paths_terminal_sum])))

/-- Witness for the amended C1 theorem at the `c1Graph` instance: the
returned single-path route delivers 150 msat for a 100 msat request. -/
theorem get_route_delivers_at_least_final_value_witness :
    100 ≤ c1Route.terminal_fees_sum ∨ c1Route.paths.length = 50 :=
  get_route_delivers_at_least_final_value 1 c1Graph 2 none none [] 100 42 c1Route
    (by rfl)

/-- Filtering out one key does not change lookups of other keys. -/
theorem find_filter_ne {α : Type} (m : List (Nat × α)) (k k2 : Nat) (h : k2 ≠ k) :
    (m.filter (fun kv => !(kv.1 == k))).find? (fun kv => kv.1 == k2) =
      m.find? (fun kv => kv.1 == k2) := by
  induction m with
  | nil => rfl
  | cons a as ih =>
    by_cases ha : a.1 = k
    · have h1 : (!(a.1 == k)) = false := by simp [ha]
      have h2 : (a.1 == k2) = false := by simp [ha]; omega
      rw [List.filter_cons, h1]
      simp only [Bool.false_eq_true, if_false]
      rw [List.find?_cons, h2]
      exact ih
    · have h1 : (!(a.1 == k)) = true := by simp [ha]
      rw [List.filter_cons, h1]
      simp only [if_true]
      rw [List.find?_cons, List.find?_cons]
      cases hak2 : (a.1 == k2) with
      | true => rfl
      | false => exact ih

/-- Lookup after insert: the inserted key reads back the new value and other
keys are untouched. -/
theorem mapGet_mapInsert {α : Type} (m : List (Nat × α)) (k k2 : Nat) (v : α) :
    mapGet (mapInsert m k v) k2 = if k2 = k then some v else mapGet m k2 := by
  unfold mapGet mapInsert
  by_cases hk : k2 = k
  · subst hk
    rw [List.find?_cons]
    simp
  · rw [List.find?_cons]
    have h2 : (k == k2) = false := by simp; omega
    rw [h2]
    rw [find_filter_ne m k k2 hk]
    simp [hk]

/-- The deduction pass never raises a book entry (entries are naturals, so
they also never go negative). -/
theorem deduct_hops_mono (v : Nat) (hops : List PathBuildingHop) :
    ∀ (book book2 : List (Nat × Nat)) (flag : Bool),
    deduct_hops v hops book = .ok (book2, flag) →
    ∀ (chan x2 : Nat), mapGet book2 chan = some x2 →
      ∃ x, mapGet book chan = some x ∧ x2 ≤ x := by
  induction hops with
  | nil =>
    intro book book2 flag h chan x2 hx2
    unfold deduct_hops at h
    injection h with h2
    injection h2 with h3 h4
    subst h3
    exact ⟨x2, hx2, Nat.le_refl x2⟩
  | cons hop rest ih =>
    intro book book2 flag h chan x2 hx2
    unfold deduct_hops at h
    split at h
    · cases h
    · rename_i avail havail
      obtain ⟨spent, hsp, h⟩ := ebind_ok_elim h
      split at h
      · injection h with h2
        injection h2 with h3 h4
        subst h3
        exact ⟨x2, hx2, Nat.le_refl x2⟩
      · obtain ⟨x, hx, hle⟩ := ih _ _ _ h chan x2 hx2
        rw [mapGet_mapInsert] at hx
        split at hx
        · rename_i hchan
          injection hx with hx3
          subst hchan
          exact ⟨avail, havail, by omega⟩
        · exact ⟨x, hx, hle⟩

/-- A fresh liquidity-book entry is created at exactly the spec's effective
capacity and inserted. -/
theorem resolve_liquidity_fresh (book : List (Nat × Nat)) (chan : Nat)
    (cap : Option Nat) (dinfo : DirInfo) (a : Nat) (book2 : List (Nat × Nat))
    (hnone : mapGet book chan = none)
    (h : resolve_liquidity book chan cap dinfo = .ok (a, book2)) :
    a = spec_effective_capacity cap dinfo ∧ book2 = mapInsert book chan a := by
  unfold resolve_liquidity at h
  rw [hnone] at h
  rcases cap with _ | capv
  · simp only [] at h
    rw [pure_bind] at h
    simp only [pure, Except.pure] at h
    unfold spec_effective_capacity
    rcases hmax : dinfo.htlc_maximum_msat with _ | hm
    · rw [hmax] at h
      injection h with h2
      injection h2 with h3 h4
      simp [← h3, h4.symm]
    · rw [hmax] at h
      injection h with h2
      injection h2 with h3 h4
      simp [← h3, h4.symm]
  · simp only [] at h
    obtain ⟨c, hc, h⟩ := ebind_ok_elim h
    obtain ⟨co, hco, h⟩ := ebind_ok_elim h
    simp only [pure, Except.pure] at hco
    cases hco
    simp only [pure, Except.pure] at h
    unfold umul at hc
    split at hc
    · rename_i hbound
      injection hc with hc2
      subst hc2
      unfold spec_effective_capacity
      rcases hmax : dinfo.htlc_maximum_msat with _ | hm
      · rw [hmax] at h
        injection h with h2
        injection h2 with h3 h4
        simp [← h3, h4.symm]
      · rw [hmax] at h
        injection h with h2
        injection h2 with h3 h4
        simp [← h3, h4.symm]
    · cases hc

/-- An existing liquidity-book entry is returned unchanged. -/
theorem resolve_liquidity_existing (book : List (Nat × Nat)) (chan : Nat)
    (cap : Option Nat) (dinfo : DirInfo) (a0 a : Nat) (book2 : List (Nat × Nat))
    (hsome : mapGet book chan = some a0)
    (h : resolve_liquidity book chan cap dinfo = .ok (a, book2)) :
    a = a0 ∧ book2 = book := by
  unfold resolve_liquidity at h
  rw [hsome] at h
  simp only [pure, Except.pure] at h
  injection h with h2
  injection h2 with h3 h4
  exact ⟨h3.symm, h4.symm⟩

/-- C5 (amended): the liquidity book respects effective capacity — a fresh
entry is created by the memoization at exactly
`min(capacity_sats*1000, htlc_maximum_msat)` (defaults included), an
existing entry is never altered by the memoization, and the post-path
deduction pass only ever lowers entries (naturals, hence never negative).
The realized route amounts, by contrast, can exceed the effective capacity
(see the capacity counterexample). -/
theorem liquidity_book_capacity :
    (∀ (book : List (Nat × Nat)) (chan : Nat) (cap : Option Nat) (dinfo : DirInfo)
       (a : Nat) (book2 : List (Nat × Nat)),
       mapGet book chan = none →
       resolve_liquidity book chan cap dinfo = .ok (a, book2) →
       a = spec_effective_capacity cap dinfo ∧ book2 = mapInsert book chan a) ∧
    (∀ (book : List (Nat × Nat)) (chan : Nat) (cap : Option Nat) (dinfo : DirInfo)
       (a0 a : Nat) (book2 : List (Nat × Nat)),
       mapGet book chan = some a0 →
       resolve_liquidity book chan cap dinfo = .ok (a, book2) →
       a = a0 ∧ book2 = book) ∧
    (∀ (v : Nat) (hops : List PathBuildingHop) (book book2 : List (Nat × Nat))
       (flag : Bool),
       deduct_hops v hops book = .ok (book2, flag) →
       ∀ (chan x2 : Nat), mapGet book2 chan = some x2 →
         ∃ x, mapGet book chan = some x ∧ x2 ≤ x) :=
  ⟨resolve_liquidity_fresh, resolve_liquidity_existing,
    fun v hops => deduct_hops_mono v hops⟩

/-- Witness for the amended C5 theorem: creating the book entry for channel
20 of the capacity counterexample (capacity 5 sats, `htlc_maximum_msat`
5300) books 5000 msat; re-resolving returns it unchanged; deducting a
100 msat hop lowers it to 4900. -/
theorem liquidity_book_capacity_witness :
    (5000 = spec_effective_capacity (some 5) c5DirX.toDir ∧
      ([(20, 5000)] : List (Nat × Nat)) = mapInsert [] 20 5000) ∧
    ((5000 : Nat) = 5000 ∧ ([(20, 5000)] : List (Nat × Nat)) = [(20, 5000)]) ∧
    ∃ x, mapGet [(20, 5000)] 20 = some x ∧ 4900 ≤ x :=
  ⟨liquidity_book_capacity.1 [] 20 (some 5) c5DirX.toDir 5000 [(20, 5000)]
      (by rfl) (by rfl),
    liquidity_book_capacity.2.1 [(20, 5000)] 20 (some 5) c5DirX.toDir 5000 5000
      [(20, 5000)] (by rfl) (by rfl),
    liquidity_book_capacity.2.2 100 [c5BookHop] [(20, 5000)] [(20, 4900)] true
      (by rfl) 20 4900 (by rfl)⟩

/-- One recompute iteration never changes a hop's routing identity (pubkey,
channel id, cltv delta). -/
theorem recompute_step_key (v : Nat) (e : Bool) (succ : Option Nat)
    (cur c1 : PathBuildingHop) (total t1 : Nat)
    (h : recompute_step v e succ cur total = .ok (c1, t1)) :
    hopKey c1 = hopKey cur := by
  unfold recompute_step at h
  obtain ⟨⟨ta, tb, tc⟩, hcore, h⟩ := ebind_ok_elim h
  obtain ⟨⟨use_fee, totalF⟩, hfs, h⟩ := ebind_ok_elim h
  simp only [pure, Except.pure] at h
  cases use_fee with
  | none =>
    injection h with h1
    injection h1 with ha hb
    rw [← ha]
    rfl
  | some u =>
    injection h with h1
    injection h1 with ha hb
    rw [← ha]
    rfl

/-- The recompute walk preserves every hop's routing identity, pointwise. -/
theorem recompute_go_keys (v : Nat) : ∀ (l : List PathBuildingHop) (total : Nat)
    (succ : Option Nat) (l2 : List PathBuildingHop) (T : Nat),
    recompute_go v l total succ = .ok (l2, T) → l2.map hopKey = l.map hopKey := by
  intro l
  induction l with
  | nil =>
    intro total succ l2 T h
    unfold recompute_go at h
    injection h with h1
    injection h1 with ha hb
    rw [← ha]
  | cons cur rest ih =>
    intro total succ l2 T h
    rw [recompute_go] at h
    obtain ⟨⟨c1, t1⟩, hstep, h⟩ := ebind_ok_elim h
    obtain ⟨⟨rest2, Tf⟩, hrest, h⟩ := ebind_ok_elim h
    simp only [pure, Except.pure] at h
    injection h with h1
    injection h1 with ha hb
    rw [← ha]
    simp only [List.map_cons]
    rw [recompute_step_key v rest.isEmpty succ cur c1 total t1 hstep,
      ih t1 (some c1.hop_use_fee_msat) rest2 Tf hrest]

/-- `update_value_and_recompute_fees` preserves the terminal hop's routing
identity. -/
theorem update_value_key (p q : PaymentPath) (v : Nat)
    (h : p.update_value_and_recompute_fees v = .ok q) :
    (q.hops.getLast?).map hopKey = (p.hops.getLast?).map hopKey := by
  unfold PaymentPath.update_value_and_recompute_fees at h
  split at h
  · cases h
  · rename_i last hlast
    split at h
    · obtain ⟨⟨rev2, T⟩, hgo, h⟩ := ebind_ok_elim h
      simp only [pure, Except.pure] at h
      cases h
      have hkeys := recompute_go_keys v p.hops.reverse 0 none rev2 T hgo
      show (rev2.reverse.getLast?).map hopKey = (p.hops.getLast?).map hopKey
      rw [List.getLast?_reverse, ← List.head?_map, hkeys, List.head?_map,
        List.head?_reverse]
    · cases h

/-- `update_value_and_recompute_fees` preserves the terminal-hop property. -/
theorem update_value_terminal_ok (c pay : Nat) (p q : PaymentPath) (v : Nat)
    (h : p.update_value_and_recompute_fees v = .ok q)
    (ht : terminal_ok c pay p) : terminal_ok c pay q := by
  obtain ⟨hl0, hget0, hc, hp⟩ := ht
  have hk := update_value_key p q v h
  rw [hget0] at hk
  cases hq : q.hops.getLast? with
  | none => rw [hq] at hk; cases hk
  | some hl =>
    rw [hq] at hk
    injection hk with hk2
    unfold hopKey at hk2
    injection hk2 with hk3 hk4
    injection hk4 with hk5 hk6
    exact ⟨hl, hq, by rw [hk6, hc], by rw [hk3, hp]⟩

/-- A successful reconstruction walk ends at a hop whose pubkey is the
payee. -/
theorem path_walk_head (ctx : RouteCtx) : ∀ (fuel : Nat)
    (acc : List PathBuildingHop) (dist : List (Nat × PathBuildingHop))
    (acc2 : List PathBuildingHop) (dist2 : List (Nat × PathBuildingHop)),
    path_walk ctx fuel acc dist = .ok (acc2, dist2) →
    ∃ hh t, acc2 = hh :: t ∧ hh.route_hop.pubkey = ctx.payee := by
  intro fuel
  induction fuel with
  | zero =>
    intro acc dist acc2 dist2 h
    simp [path_walk] at h
  | succ fuel ih =>
    intro acc dist acc2 dist2 h
    rw [path_walk.eq_def] at h
    simp only [] at h
    split at h
    · cases h
    · rename_i hd tail
      split at h
      · rw [ebind_ok] at h
        split at h
        · rename_i hpay
          simp only [pure, Except.pure] at h
          injection h with h1
          injection h1 with ha hb
          exact ⟨_, tail, ha.symm, hpay⟩
        · split at h
          · cases h
          · exact ih _ _ _ _ h
      · split at h
        · split at h
          · rw [ebind_ok] at h
            split at h
            · rename_i hpay
              simp only [pure, Except.pure] at h
              injection h with h1
              injection h1 with ha hb
              exact ⟨_, tail, ha.symm, hpay⟩
            · split at h
              · cases h
              · exact ih _ _ _ _ h
          · rw [ebind_ok] at h
            split at h
            · rename_i hpay
              simp only [pure, Except.pure] at h
              injection h with h1
              injection h1 with ha hb
              exact ⟨_, tail, ha.symm, hpay⟩
            · split at h
              · cases h
              · exact ih _ _ _ _ h
        · split at h
          · rename_i hpay0
            rw [ebind_ok, if_pos hpay0] at h
            simp only [pure, Except.pure] at h
            injection h with h1
            injection h1 with ha hb
            exact ⟨_, tail, ha.symm, hpay0⟩
          · rw [ebind_err] at h
            cases h

/-- The chain invariant only reads the head's pubkey and channel id, so heads
agreeing on those are interchangeable. -/
theorem chain_cons_congr (ctx : RouteCtx) (x1 x2 : PathBuildingHop)
    (t : List PathBuildingHop)
    (hp : x1.route_hop.pubkey = x2.route_hop.pubkey)
    (hs : x1.route_hop.short_channel_id = x2.route_hop.short_channel_id) :
    cltv_chain_ok ctx (x1 :: t) = cltv_chain_ok ctx (x2 :: t) := by
  cases t with
  | nil => rfl
  | cons y rest =>
    show (adv_edge ctx _ _ _ _ && _) = (adv_edge ctx _ _ _ _ && _)
    rw [hp, hs]

/-- A `dist` lookup out of an advertisement-correct map yields an advertised
edge. -/
theorem dist_adv_lookup (ctx : RouteCtx) (dist : List (Nat × PathBuildingHop))
    (k : Nat) (e : PathBuildingHop) (hall : dist_adv_ok ctx dist = true)
    (hget : mapGet dist k = some e) :
    adv_edge ctx k e.route_hop.pubkey e.route_hop.short_channel_id
      e.route_hop.cltv_expiry_delta = true := by
  unfold mapGet at hget
  cases hf : dist.find? (fun kv => kv.1 == k) with
  | none => rw [hf] at hget; cases hget
  | some kv =>
    rw [hf] at hget
    simp only [Option.map] at hget
    injection hget with hget2
    have hk : kv.1 = k := by
      have := List.find?_some hf
      simpa using this
    have hmem := List.mem_of_find?_eq_some hf
    have := List.all_eq_true.mp hall kv hmem
    rw [← hk, ← hget2]
    exact this

/-- Filtering preserves a universally true boolean predicate. -/
theorem all_filter_of_all {α : Type} (p q : α → Bool) (l : List α)
    (h : l.all p = true) : (l.filter q).all p = true := by
  rw [List.all_eq_true] at h ⊢
  intro a ha
  exact h a (List.mem_of_mem_filter ha)

/-- The continuation of one reconstruction step preserves the chain
invariant. -/
theorem path_walk_chain_cont (ctx : RouteCtx) (fuel : Nat)
    (ih : ∀ (acc : List PathBuildingHop) (dist : List (Nat × PathBuildingHop))
      (acc2 : List PathBuildingHop) (dist2 : List (Nat × PathBuildingHop)),
      path_walk ctx fuel acc dist = .ok (acc2, dist2) →
      cltv_chain_ok ctx acc = true → dist_adv_ok ctx dist = true →
      cltv_chain_ok ctx acc2 = true)
    (y : PathBuildingHop) (tail : List PathBuildingHop)
    (dist : List (Nat × PathBuildingHop)) (acc2 : List PathBuildingHop)
    (dist2 : List (Nat × PathBuildingHop))
    (h : (if y.route_hop.pubkey = ctx.payee then
            (pure (y :: tail, dist) :
              Except RErr (List PathBuildingHop × List (Nat × PathBuildingHop)))
          else
            match mapRemove dist y.route_hop.pubkey with
            | (none, _) => .error (.abort "internal error: entered unreachable code")
            | (some new_entry, dist') =>
              path_walk ctx fuel (new_entry :: { y with route_hop :=
                { y.route_hop with
                  fee_msat := new_entry.hop_use_fee_msat,
                  cltv_expiry_delta := new_entry.route_hop.cltv_expiry_delta } } ::
                tail) dist') = .ok (acc2, dist2))
    (hch : cltv_chain_ok ctx (y :: tail) = true)
    (hdist : dist_adv_ok ctx dist = true) :
    cltv_chain_ok ctx acc2 = true := by
  split at h
  · simp only [pure, Except.pure] at h
    injection h with h1
    injection h1 with ha hb
    rw [← ha]
    exact hch
  · rcases hmr : mapRemove dist y.route_hop.pubkey with ⟨eopt, dist3⟩
    rw [hmr] at h
    rcases eopt with _ | ne
    · simp only [] at h
      cases h
    · simp only [] at h
      have hpair : mapGet dist y.route_hop.pubkey = some ne ∧
          dist3 = dist.filter (fun kv => !(kv.1 == y.route_hop.pubkey)) := by
        unfold mapRemove at hmr
        injection hmr with hm1 hm2
        exact ⟨hm1, hm2.symm⟩
      have hadv := dist_adv_lookup ctx dist _ _ hdist hpair.1
      apply ih _ _ _ _ h
      · show (adv_edge ctx _ _ _ _ && cltv_chain_ok ctx (_ :: tail)) = true
        rw [Bool.and_eq_true]
        constructor
        · exact hadv
        · exact Eq.trans (chain_cons_congr ctx _ y tail (by rfl) (by rfl)) hch
      · unfold dist_adv_ok
        rw [hpair.2]
        exact all_filter_of_all _ _ _ hdist

/-- The reconstruction walk preserves the chain invariant: walking an
advertisement-correct `dist` keeps every adjacent hop pair advertised. -/
theorem path_walk_chain (ctx : RouteCtx) : ∀ (fuel : Nat)
    (acc : List PathBuildingHop) (dist : List (Nat × PathBuildingHop))
    (acc2 : List PathBuildingHop) (dist2 : List (Nat × PathBuildingHop)),
    path_walk ctx fuel acc dist = .ok (acc2, dist2) →
    cltv_chain_ok ctx acc = true → dist_adv_ok ctx dist = true →
    cltv_chain_ok ctx acc2 = true := by
  intro fuel
  induction fuel with
  | zero =>
    intro acc dist acc2 dist2 h hch hdist
    simp [path_walk] at h
  | succ fuel ih =>
    intro acc dist acc2 dist2 h hch hdist
    rw [path_walk.eq_def] at h
    simp only [] at h
    split at h
    · cases h
    · rename_i hd tail
      split at h
      · rw [ebind_ok] at h
        refine path_walk_chain_cont ctx fuel ih _ tail dist acc2 dist2 h ?_ hdist
        exact Eq.trans (chain_cons_congr ctx _ hd tail (by rfl) (by rfl)) hch
      · split at h
        · split at h
          · rw [ebind_ok] at h
            refine path_walk_chain_cont ctx fuel ih _ tail dist acc2 dist2 h ?_ hdist
            exact Eq.trans (chain_cons_congr ctx _ hd tail (by rfl) (by rfl)) hch
          · rw [ebind_ok] at h
            refine path_walk_chain_cont ctx fuel ih _ tail dist acc2 dist2 h ?_ hdist
            exact Eq.trans (chain_cons_congr ctx _ hd tail (by rfl) (by rfl)) hch
        · split at h
          · rw [ebind_ok] at h
            refine path_walk_chain_cont ctx fuel ih _ tail dist acc2 dist2 h ?_ hdist
            exact hch
          · rw [ebind_err] at h
            cases h

/-- `dist.entry(..).or_insert_with(..)` either returns the existing entry or
inserts the semi-dummy entry (channel id 0, cltv delta 0, destination
pubkey). -/
theorem get_or_insert_dist_cases (network : NetworkGraph)
    (dist : List (Nat × PathBuildingHop)) (src dest : Nat) (dinfo : DirInfo)
    (feats : Features) (e0 : PathBuildingHop) (dist1 : List (Nat × PathBuildingHop))
    (h : get_or_insert_dist network dist src dest dinfo feats = (e0, dist1)) :
    (mapGet dist src = some e0 ∧ dist1 = dist) ∨
    (dist1 = mapInsert dist src e0 ∧ e0.route_hop.pubkey = dest ∧
      e0.route_hop.short_channel_id = 0 ∧ e0.route_hop.cltv_expiry_delta = 0) := by
  unfold get_or_insert_dist at h
  split at h
  · rename_i e heq
    injection h with h1 h2
    exact Or.inl ⟨by rw [heq, h1], h2.symm⟩
  · rename_i heq
    simp only [] at h
    injection h with h1 h2
    subst h1
    exact Or.inr ⟨by rw [← h2], rfl, rfl, rfl⟩

/-- Any `dist` binding touched by `add_entry` is either preserved, or is the
entry for the relaxed source recording the relaxed channel and its advertised
cltv delta (the replacement) or the semi-dummy placeholder (channel 0,
delta 0). -/
theorem add_entry_dist_writes (our_node_id : Nat) (network : NetworkGraph)
    (allow_mpp : Bool) (recommended final collected : Nat)
    (chan_id src_node_id dest_node_id : Nat) (dinfo : DirInfo)
    (capacity_sats : Option Nat) (chan_features : Features)
    (next_hops_fee next_hops_value : Nat) (st st2 : SearchState)
    (h : add_entry our_node_id network allow_mpp recommended final collected
      chan_id src_node_id dest_node_id dinfo capacity_sats chan_features
      next_hops_fee next_hops_value st = .ok st2) :
    ∀ (k : Nat) (e : PathBuildingHop), mapGet st2.dist k = some e →
      mapGet st.dist k = some e ∨
      (k = src_node_id ∧ e.route_hop.pubkey = dest_node_id ∧
        ((e.route_hop.short_channel_id = chan_id ∧
          e.route_hop.cltv_expiry_delta = dinfo.cltv_expiry_delta) ∨
         (e.route_hop.short_channel_id = 0 ∧
          e.route_hop.cltv_expiry_delta = 0))) := by
  intro k e hk
  unfold add_entry at h
  split at h
  · obtain ⟨⟨avail, book1⟩, hres, h⟩ := ebind_ok_elim h
    simp only [] at h
    split at h
    · injection h with h1
      rw [← h1] at hk
      exact Or.inl hk
    · rename_i avail2 hsub
      obtain ⟨minv, hmin, h⟩ := ebind_ok_elim h
      split at h
      swap
      · rw [ebind_err] at h
        cases h
      rename_i amount hca
      rw [pure_bind] at h
      split at h
      · rcases hgi : get_or_insert_dist network st.dist src_node_id dest_node_id
          dinfo chan_features with ⟨old_entry, dist1⟩
        rw [hgi] at h
        simp only [] at h
        obtain ⟨⟨huf, tf⟩, hfee, h⟩ := ebind_ok_elim h
        obtain ⟨lfn, hlfn, h⟩ := ebind_ok_elim h
        simp only [pure, Except.pure] at h
        have hdist1 := get_or_insert_dist_cases network st.dist src_node_id
          dest_node_id dinfo chan_features old_entry dist1 hgi
        split at h
        · injection h with h1
          rw [← h1] at hk
          simp only [] at hk
          rw [mapGet_mapInsert] at hk
          split at hk
          · rename_i hksrc
            injection hk with hk1
            exact Or.inr ⟨hksrc, by rw [← hk1], Or.inl ⟨by rw [← hk1], by rw [← hk1]⟩⟩
          · rename_i hkne
            rcases hdist1 with ⟨hsome, heq⟩ | ⟨hins, hpk, hsc, hcl⟩
            · rw [heq] at hk
              exact Or.inl hk
            · rw [hins, mapGet_mapInsert] at hk
              split at hk
              · rename_i hksrc2
                exact absurd hksrc2 hkne
              · exact Or.inl hk
        · injection h with h1
          rw [← h1] at hk
          simp only [] at hk
          rcases hdist1 with ⟨hsome, heq⟩ | ⟨hins, hpk, hsc, hcl⟩
          · rw [heq] at hk
            exact Or.inl hk
          · rw [hins, mapGet_mapInsert] at hk
            split at hk
            · rename_i hksrc
              injection hk with hk1
              exact Or.inr ⟨hksrc, by rw [← hk1]; exact hpk,
                Or.inr ⟨by rw [← hk1]; exact hsc, by rw [← hk1]; exact hcl⟩⟩
            · exact Or.inl hk
      · injection h with h1
        rw [← h1] at hk
        exact Or.inl hk
  · injection h with h1
    rw [← h1] at hk
    exact Or.inl hk

/-- The retain pass only keeps paths of its input. -/
theorem retain_paths_mem (l : List PaymentPath) : ∀ (n ov : Nat)
    (kept : List PaymentPath) (ov2 : Nat),
    retain_paths l n ov = .ok (kept, ov2) → ∀ p ∈ kept, p ∈ l := by
  induction l with
  | nil =>
    intro n ov kept ov2 h
    unfold retain_paths at h
    injection h with h2
    injection h2 with h3 h4
    subst h3
    simp
  | cons p rest ih =>
    intro n ov kept ov2 h
    unfold retain_paths at h
    split at h
    · obtain ⟨⟨rest2, ovx⟩, hr, h⟩ := ebind_ok_elim h
      injection h with h2
      injection h2 with h3 h4
      subst h3
      intro q hq
      rcases List.mem_cons.mp hq with hq | hq
      · exact hq ▸ List.mem_cons_self p rest
      · exact List.mem_cons_of_mem p (ih n ov rest2 ovx hr q hq)
    · obtain ⟨v, hv, h⟩ := ebind_ok_elim h
      split at h
      · intro q hq
        exact List.mem_cons_of_mem p (ih (n - 1) (ov - v) kept ov2 h q hq)
      · obtain ⟨⟨rest2, ovx⟩, hr, h⟩ := ebind_ok_elim h
        injection h with h2
        injection h2 with h3 h4
        subst h3
        intro q hq
        rcases List.mem_cons.mp hq with hq | hq
        · exact hq ▸ List.mem_cons_self p rest
        · exact List.mem_cons_of_mem p (ih n ov rest2 ovx hr q hq)

/-- `reduce_route` preserves the terminal-hop property of every path. -/
theorem reduce_route_terminal (c pay final : Nat) (cur : List PaymentPath)
    (agg : Nat) (out : List PaymentPath) (h : reduce_route final cur agg = .ok out)
    (hall : ∀ p ∈ cur, terminal_ok c pay p) : ∀ p ∈ out, terminal_ok c pay p := by
  unfold reduce_route at h
  obtain ⟨sorted, hsort, h1⟩ := ebind_ok_elim h
  clear h
  obtain ⟨⟨kept, ov2⟩, hret, h2⟩ := ebind_ok_elim h1
  clear h1
  simp only [] at h2
  have hsmem : ∀ p ∈ sorted, p ∈ cur := fun p hp =>
    (sort_by_key_m_perm _ cur sorted hsort).mem_iff.mp hp
  have hkmem : ∀ p ∈ kept, terminal_ok c pay p := fun p hp =>
    hall p (hsmem p (retain_paths_mem sorted sorted.length (agg - final) kept ov2
      hret p hp))
  split at h2
  · injection h2 with h3
    subst h3
    exact hkmem
  · split at h2
    · obtain ⟨sorted2, hsort2, h3⟩ := ebind_ok_elim h2
      have hs2mem : ∀ p ∈ sorted2, terminal_ok c pay p := fun p hp =>
        hkmem p ((sort_by_key_m_perm _ kept sorted2 hsort2).mem_iff.mp hp)
      rcases sorted2 with _ | ⟨expensive, rest2⟩
      · cases h3
      · obtain ⟨v, hv, h4⟩ := ebind_ok_elim h3
        obtain ⟨newv, hsub, h5⟩ := ebind_ok_elim h4
        obtain ⟨exp2, hupd, h6⟩ := ebind_ok_elim h5
        injection h6 with h7
        subst h7
        intro p hp
        rcases List.mem_cons.mp hp with hp | hp
        · subst hp
          exact update_value_terminal_ok c pay expensive p newv hupd
            (hs2mem expensive (List.mem_cons_self _ _))
        · exact hs2mem p (List.mem_cons_of_mem _ hp)
    · cases h2

/-- The accumulation step preserves the terminal-hop property of every
path. -/
theorem route_accum_terminal (c pay final : Nat) (todo : List PaymentPath) :
    ∀ (cur out : List PaymentPath) (agg : Nat),
    route_accum final todo cur agg = .ok out →
    (∀ p ∈ cur, terminal_ok c pay p) → (∀ p ∈ todo, terminal_ok c pay p) →
    ∀ p ∈ out, terminal_ok c pay p := by
  induction todo with
  | nil =>
    intro cur out agg h hc ht
    unfold route_accum at h
    injection h with h2
    subst h2
    exact hc
  | cons p0 rest ih =>
    intro cur out agg h hc ht
    unfold route_accum at h
    obtain ⟨v, hv, h1⟩ := ebind_ok_elim h
    clear h
    obtain ⟨agg2, hadd, h2⟩ := ebind_ok_elim h1
    clear h1
    have hc2 : ∀ p ∈ cur ++ [p0], terminal_ok c pay p := by
      intro p hp
      rcases List.mem_append.mp hp with hp | hp
      · exact hc p hp
      · rcases List.mem_singleton.mp hp with hp
        exact hp ▸ ht p0 (List.mem_cons_self _ _)
    split at h2
    · exact reduce_route_terminal c pay final (cur ++ [p0]) agg2 out h2 hc2
    · exact ih (cur ++ [p0]) out agg2 h2 hc2
        (fun p hp => ht p (List.mem_cons_of_mem _ hp))

/-- The composer preserves the terminal-hop property into the realized
route. -/
theorem route_compose_terminal (c pay final : Nat) (payee_features : Option Features)
    (paths0 : List PaymentPath) (r : Route)
    (h : route_compose final payee_features paths0 = .ok r)
    (hall : ∀ p ∈ paths0, terminal_ok c pay p) :
    ∀ path ∈ r.paths, ∃ last, path.getLast? = some last ∧
      last.cltv_expiry_delta = c ∧ last.pubkey = pay := by
  unfold route_compose at h
  obtain ⟨paths_s, hsort, h1⟩ := ebind_ok_elim h
  clear h
  simp only [] at h1
  obtain ⟨drawn, hdrawn, h2⟩ := ebind_ok_elim h1
  clear h1
  obtain ⟨drawn2, hsort2, h3⟩ := ebind_ok_elim h2
  clear h2
  split at h3
  · cases h3
  rename_i best rest2
  have hsmem : ∀ p ∈ paths_s, terminal_ok c pay p := fun p hp =>
    hall p ((sort_by_key_m_perm _ paths0 paths_s hsort).mem_iff.mp hp)
  have hTLmem : ∀ p ∈ (if paths_s.length > 50 then List.take 50 paths_s
      else paths_s), terminal_ok c pay p := by
    intro p hp
    by_cases h50 : paths_s.length > 50
    · rw [if_pos h50] at hp
      exact hsmem p (List.mem_of_mem_take hp)
    · rw [if_neg h50] at hp
      exact hsmem p hp
  obtain ⟨hdlen, hdmem⟩ := mapM_ok_facts _ _ drawn hdrawn
  have hbmem : best ∈ drawn :=
    (sort_by_key_m_perm _ drawn (best :: rest2) hsort2).mem_iff.mp
      (List.mem_cons_self _ _)
  obtain ⟨i, hi, hacc⟩ := hdmem best hbmem
  have hbterm : ∀ p ∈ best, terminal_ok c pay p := by
    apply route_accum_terminal c pay final _ [] best 0 hacc (by simp)
    intro p hp
    rcases List.mem_append.mp hp with hp | hp
    · exact hTLmem p (List.mem_of_mem_drop hp)
    · exact hTLmem p (List.mem_of_mem_take hp)
  cases payee_features with
  | none =>
    simp only [] at h3
    rw [pure_bind] at h3
    simp only [pure, Except.pure] at h3
    cases h3
    intro path hpath
    obtain ⟨pp, hpp, hpe⟩ := List.mem_map.mp hpath
    obtain ⟨hl, hget, hc2, hp2⟩ := hbterm pp hpp
    refine ⟨hl.route_hop, ?_, hc2, hp2⟩
    rw [← hpe, List.getLast?_map, hget]
    rfl
  | some features =>
    simp only [] at h3
    obtain ⟨sel2, hsel, h4⟩ := ebind_ok_elim h3
    simp only [pure, Except.pure] at h4
    cases h4
    intro path hpath
    obtain ⟨hlen2, hmem2⟩ := mapM_ok_facts _ _ sel2 hsel
    obtain ⟨x, hx, hfx⟩ := hmem2 path hpath
    obtain ⟨pp, hpp, hpe⟩ := List.mem_map.mp hx
    obtain ⟨hl, hget, hc2, hp2⟩ := hbterm pp hpp
    have hxlast : x.getLast? = some hl.route_hop := by
      rw [← hpe, List.getLast?_map, hget]
      rfl
    rw [hxlast] at hfx
    simp only [pure, Except.pure] at hfx
    injection hfx with hfx2
    refine ⟨{ hl.route_hop with node_features := features.to_context }, ?_, hc2, hp2⟩
    rw [← hfx2, List.getLast?_concat]

/-- Every path appended by the path-construction loop ends at the payee with
the final cltv. -/
theorem inner_loop_terminal (ctx : RouteCtx) (fuel : Nat) : ∀ (st : SearchState)
    (collected : Nat) (paths : List PaymentPath) (st2 : SearchState)
    (collected2 : Nat) (paths2 : List PaymentPath) (flag : Bool),
    inner_loop ctx fuel st collected paths = .ok (st2, collected2, paths2, flag) →
    (∀ p ∈ paths, terminal_ok ctx.final_cltv ctx.payee p) →
    ∀ p ∈ paths2, terminal_ok ctx.final_cltv ctx.payee p := by
  induction fuel with
  | zero =>
    intro st collected paths st2 collected2 paths2 flag h hinv
    simp [inner_loop] at h
  | succ fuel ih =>
    intro st collected paths st2 collected2 paths2 flag h hinv
    rw [inner_loop] at h
    split at h
    · injection h with h2
      injection h2 with h3 h4
      injection h4 with h5 h6
      injection h6 with h7 h8
      subst h5
      subst h7
      exact hinv
    · rename_i rgn rest_targets hpop
      split at h
      · rcases hmr : mapRemove st.dist ctx.our_node_id with ⟨eopt, dist0⟩
        simp only [] at h
        rw [hmr] at h
        simp only [] at h
        rcases eopt with _ | new_entry
        · cases h
        · simp only [] at h
          obtain ⟨⟨acc0, dist1⟩, hwalk, h⟩ := ebind_ok_elim h
          simp only [] at h
          rcases acc0 with _ | ⟨lastHop, tl⟩
          · rw [ebind_err] at h
            cases h
          · simp only [] at h
            rw [pure_bind] at h
            obtain ⟨pp, hupd, h⟩ := ebind_ok_elim h
            obtain ⟨⟨book2, completed⟩, hded, h⟩ := ebind_ok_elim h
            simp only [] at h
            have hpay : lastHop.route_hop.pubkey = ctx.payee := by
              obtain ⟨hh, t, hcons, hpk⟩ := path_walk_head ctx (dist0.length + 1)
                [new_entry] dist0 (lastHop :: tl) dist1 hwalk
              injection hcons with hc1 hc2
              rw [hc1]
              exact hpk
            have hppterm : terminal_ok ctx.final_cltv ctx.payee pp := by
              apply update_value_terminal_ok ctx.final_cltv ctx.payee _ pp
                rgn.value_contribution_msat hupd
              refine ⟨{ lastHop with
                  route_hop := { lastHop.route_hop with
                    fee_msat := rgn.value_contribution_msat,
                    cltv_expiry_delta := ctx.final_cltv },
                  hop_use_fee_msat := 0 }, ?_, rfl, hpay⟩
              rw [List.getLast?_reverse]
              rfl
            split at h
            · obtain ⟨coll2, haddc, h⟩ := ebind_ok_elim h
              injection h with h2
              injection h2 with h3 h4
              injection h4 with h5 h6
              injection h6 with h7 h8
              subst h5
              subst h7
              intro p hp
              rcases List.mem_append.mp hp with hp | hp
              · exact hinv p hp
              · rcases List.mem_singleton.mp hp with hp
                exact hp ▸ hppterm
            · injection h with h2
              injection h2 with h3 h4
              injection h4 with h5 h6
              injection h6 with h7 h8
              subst h5
              subst h7
              exact hinv
      · split at h
        · exact ih _ _ _ _ _ _ _ h hinv
        · obtain ⟨st3, hadd, h⟩ := ebind_ok_elim h
          exact ih _ _ _ _ _ _ _ h hinv

/-- Every path produced by the collection loop ends at the payee with the
final cltv. -/
theorem paths_collection_terminal (ctx : RouteCtx) (fuel : Nat) :
    ∀ (collected : Nat) (paths : List PaymentPath) (book : List (Nat × Nat))
    (collected2 : Nat) (paths2 : List PaymentPath),
    paths_collection ctx fuel collected paths book = .ok (collected2, paths2) →
    (∀ p ∈ paths, terminal_ok ctx.final_cltv ctx.payee p) →
    ∀ p ∈ paths2, terminal_ok ctx.final_cltv ctx.payee p := by
  induction fuel with
  | zero =>
    intro collected paths book collected2 paths2 h hinv
    simp [paths_collection] at h
  | succ fuel ih =>
    intro collected paths book collected2 paths2 h hinv
    rw [paths_collection] at h
    obtain ⟨st, hseed, h⟩ := ebind_ok_elim h
    obtain ⟨⟨st2, coll2, paths3, flag⟩, hil, h⟩ := ebind_ok_elim h
    simp only [] at h
    have hinv2 := inner_loop_terminal ctx _ st collected paths st2 coll2 paths3
      flag hil hinv
    split at h
    · injection h with h2
      injection h2 with h3 h4
      subst h4
      exact hinv2
    · split at h
      · injection h with h2
        injection h2 with h3 h4
        subst h4
        exact hinv2
      · exact ih coll2 paths3 st2.book collected2 paths2 h hinv2

/-- Every path of a successful route ends at the payee with the
caller-provided final cltv. -/
theorem get_route_terminal (our_node_id : Nat) (network : NetworkGraph)
    (payee : Nat) (payee_features : Option Features)
    (first_hops : Option (List ChannelDetails)) (last_hops : List RouteHint)
    (final_value_msat final_cltv : Nat) (r : Route)
    (h : get_route our_node_id network payee payee_features first_hops last_hops
        final_value_msat final_cltv = .ok r) :
    ∀ path ∈ r.paths, ∃ last, path.getLast? = some last ∧
      last.cltv_expiry_delta = final_cltv ∧ last.pubkey = payee := by
  unfold get_route at h
  split at h
  · cases h
  split at h
  · cases h
  split at h
  · cases h
  split at h
  · cases h
  obtain ⟨recommended, hrec, h⟩ := ebind_ok_elim h
  simp only [] at h
  rcases first_hops with _ | fhops
  · rw [pure_bind] at h
    simp only [] at h
    obtain ⟨⟨collected, paths0⟩, hcoll, h⟩ := ebind_ok_elim h
    simp only [] at h
    split at h
    · cases h
    split at h
    · cases h
    exact route_compose_terminal final_cltv payee _ _ _ r h
      (paths_collection_terminal _ _ 0 [] [] collected paths0 hcoll (by simp))
  · obtain ⟨tgts, htgts, h⟩ := ebind_ok_elim h
    split at h
    · rw [ebind_err] at h
      cases h
    rw [pure_bind] at h
    obtain ⟨⟨collected, paths0⟩, hcoll, h⟩ := ebind_ok_elim h
    simp only [] at h
    split at h
    · cases h
    split at h
    · cases h
    exact route_compose_terminal final_cltv payee _ _ _ r h
      (paths_collection_terminal _ _ 0 [] [] collected paths0 hcoll (by simp))

/-- C9: cltv properties of successful routes.  (i) In every returned path the
terminal hop carries the caller-provided `final_cltv` and the payee's pubkey.
(ii) The reconstruction walk propagates each followed `dist` entry's recorded
`cltv_expiry_delta` onto the preceding hop: walking an advertisement-correct
`dist` keeps every adjacent hop pair advertised, i.e. each non-terminal
hop's `cltv_expiry_delta` is the advertised delta of the channel used for the
following hop.  (iii) The `dist` entries themselves record advertised deltas:
`add_entry` either preserves a binding or writes the entry for the relaxed
source carrying the relaxed channel's id and its advertised
`cltv_expiry_delta` (or the semi-dummy placeholder, channel 0 and delta 0,
which never survives a won comparison). -/
theorem get_route_cltv_properties :
    (∀ (our_node_id : Nat) (network : NetworkGraph) (payee : Nat)
       (payee_features : Option Features) (first_hops : Option (List ChannelDetails))
       (last_hops : List RouteHint) (final_value_msat final_cltv : Nat) (r : Route),
       get_route our_node_id network payee payee_features first_hops last_hops
         final_value_msat final_cltv = .ok r →
       ∀ path ∈ r.paths, ∃ last, path.getLast? = some last ∧
         last.cltv_expiry_delta = final_cltv ∧ last.pubkey = payee) ∧
    (∀ (ctx : RouteCtx) (fuel : Nat) (acc : List PathBuildingHop)
       (dist : List (Nat × PathBuildingHop)) (acc2 : List PathBuildingHop)
       (dist2 : List (Nat × PathBuildingHop)),
       path_walk ctx fuel acc dist = .ok (acc2, dist2) →
       cltv_chain_ok ctx acc = true → dist_adv_ok ctx dist = true →
       cltv_chain_ok ctx acc2 = true) ∧
    (∀ (our_node_id : Nat) (network : NetworkGraph) (allow_mpp : Bool)
       (recommended final collected : Nat)
       (chan_id src_node_id dest_node_id : Nat) (dinfo : DirInfo)
       (capacity_sats : Option Nat) (chan_features : Features)
       (next_hops_fee next_hops_value : Nat) (st st2 : SearchState),
       add_entry our_node_id network allow_mpp recommended final collected
         chan_id src_node_id dest_node_id dinfo capacity_sats chan_features
         next_hops_fee next_hops_value st = .ok st2 →
       ∀ (k : Nat) (e : PathBuildingHop), mapGet st2.dist k = some e →
         mapGet st.dist k = some e ∨
         (k = src_node_id ∧ e.route_hop.pubkey = dest_node_id ∧
           ((e.route_hop.short_channel_id = chan_id ∧
             e.route_hop.cltv_expiry_delta = dinfo.cltv_expiry_delta) ∨
            (e.route_hop.short_channel_id = 0 ∧
             e.route_hop.cltv_expiry_delta = 0)))) :=
  ⟨get_route_terminal, path_walk_chain, add_entry_dist_writes⟩

/-- Witness for C9: the single-path route on `c1Graph` ends at the payee (2)
with the requested final cltv (42); a concrete reconstruction walk keeps the
(6 = channel 100's advertised delta) chain intact; and the concrete C4
relaxation writes the entry for node 3 recording channel 7 with its
advertised delta 11. -/
theorem get_route_cltv_properties_witness :
    (∀ path ∈ c1Route.paths, ∃ last, path.getLast? = some last ∧
      last.cltv_expiry_delta = 42 ∧ last.pubkey = 2) ∧
    cltv_chain_ok ctx9 [c9HopA, c9HopB] = true ∧
    (mapGet c4St.dist 3 = some c4Updated ∨
      (3 = 3 ∧ c4Updated.route_hop.pubkey = 2 ∧
        ((c4Updated.route_hop.short_channel_id = 7 ∧
          c4Updated.route_hop.cltv_expiry_delta = c4Dinfo.cltv_expiry_delta) ∨
         (c4Updated.route_hop.short_channel_id = 0 ∧
          c4Updated.route_hop.cltv_expiry_delta = 0)))) :=
  ⟨get_route_cltv_properties.1 1 c1Graph 2 none none [] 100 42 c1Route (by rfl),
    get_route_cltv_properties.2.1 ctx9 1 [c9HopA, c9HopB] [] [c9HopA, c9HopB] []
      (by rfl) (by decide) (by decide),
    get_route_cltv_properties.2.2 1 c4Net false 300 100 0 7 3 2 c4Dinfo none
      Features.empty 0 300 c4St ⟨[⟨3, 2, 2, 300⟩], [(3, c4Updated)], [(7, 1000)]⟩
      (by rfl) 3 c4Updated (by rfl)⟩

/-- Reading back a big-endian write accumulates exactly the written value. -/
theorem read_be_go_spec : ∀ (w n acc : Nat) (suffix : List Nat), n < 256 ^ w →
    read_be_go w (write_be w n ++ suffix) acc = some (acc * 256 ^ w + n, suffix) := by
  intro w
  induction w with
  | zero =>
    intro n acc suffix hn
    have hn0 : n = 0 := by simpa using hn
    subst hn0
    simp [write_be, read_be_go]
  | succ w ih =>
    intro n acc suffix hn
    show read_be_go (w + 1) ((n / 256 ^ w) :: (write_be w (n % 256 ^ w) ++ suffix))
      acc = _
    rw [show read_be_go (w + 1) ((n / 256 ^ w) :: (write_be w (n % 256 ^ w) ++
      suffix)) acc = read_be_go w (write_be w (n % 256 ^ w) ++ suffix)
      (acc * 256 + n / 256 ^ w) from rfl]
    rw [ih (n % 256 ^ w) (acc * 256 + n / 256 ^ w) suffix
      (Nat.mod_lt n (Nat.pos_pow_of_pos w (by omega)))]
    congr 2
    have h1 : 256 ^ w * (n / 256 ^ w) + n % 256 ^ w = n := Nat.div_add_mod n (256 ^ w)
    calc (acc * 256 + n / 256 ^ w) * 256 ^ w + n % 256 ^ w
        = acc * (256 ^ w * 256) + (256 ^ w * (n / 256 ^ w) + n % 256 ^ w) := by ring
      _ = acc * 256 ^ (w + 1) + n := by rw [h1, pow_succ]

/-- Fixed-width big-endian round trip with a remaining suffix. -/
theorem read_be_spec (w n : Nat) (suffix : List Nat) (hn : n < 256 ^ w) :
    read_be w (write_be w n ++ suffix) = some (n, suffix) := by
  unfold read_be
  rw [read_be_go_spec w n 0 suffix hn]
  norm_num

/-- Features round trip with a remaining suffix. -/
theorem read_features_spec (f : Features) (suffix : List Nat) :
    read_features (write_features f ++ suffix) = some (f, suffix) := by
  rcases f with ⟨rb, sb⟩
  rcases rb <;> rcases sb <;> rfl

/-- Reduction of the `Option` bind on a present value. -/
theorem obind_some {α β : Type} (a : α) (f : α → Option β) :
    (some a >>= f) = f a :=
  rfl

/-- A serialized hop round trips with a remaining suffix. -/
theorem read_route_hop_spec (h : RouteHop) (suffix : List Nat)
    (hwf : hop_wf h = true) :
    read_route_hop (write_route_hop h ++ suffix) = some (h, suffix) := by
  have hb : h.pubkey < 256 ^ 33 ∧ h.short_channel_id < 2 ^ 64 ∧
      h.fee_msat < 2 ^ 64 ∧ h.cltv_expiry_delta < 2 ^ 32 := by
    simpa [hop_wf, Bool.and_eq_true, decide_eq_true_eq, and_assoc] using hwf
  have h64 : (2 : Nat) ^ 64 = 256 ^ 8 := by norm_num
  have h32 : (2 : Nat) ^ 32 = 256 ^ 4 := by norm_num
  unfold read_route_hop write_route_hop
  simp only [List.append_assoc]
  rw [read_be_spec 33 h.pubkey _ hb.1]
  simp only [obind_some]
  rw [read_features_spec]
  simp only [obind_some]
  rw [read_be_spec 8 h.short_channel_id _ (by rw [← h64]; exact hb.2.1)]
  simp only [obind_some]
  rw [read_features_spec]
  simp only [obind_some]
  rw [read_be_spec 8 h.fee_msat _ (by rw [← h64]; exact hb.2.2.1)]
  simp only [obind_some]
  rw [read_be_spec 4 h.cltv_expiry_delta _ (by rw [← h32]; exact hb.2.2.2)]
  simp only [obind_some]

/-- The counted-hops loop round trips with a remaining suffix. -/
theorem read_hops_go_spec : ∀ (hops : List RouteHop) (suffix : List Nat),
    (∀ h ∈ hops, hop_wf h = true) →
    read_hops_go hops.length (write_hops_list hops ++ suffix) =
      some (hops, suffix) := by
  intro hops
  induction hops with
  | nil => intro suffix _; rfl
  | cons h rest ih =>
    intro suffix hall
    show read_hops_go (rest.length + 1)
      ((write_route_hop h ++ write_hops_list rest) ++ suffix) = _
    rw [List.append_assoc]
    unfold read_hops_go
    rw [read_route_hop_spec h _ (hall h (List.mem_cons_self _ _))]
    simp only [obind_some]
    rw [ih suffix (fun h2 hh => hall h2 (List.mem_cons_of_mem _ hh))]
    simp only [obind_some]

/-- A serialized path (`u8` count plus hops) round trips with a remaining
suffix when it has at most 255 hops. -/
theorem read_hops_spec (hops : List RouteHop) (suffix : List Nat)
    (hlen : hops.length ≤ 255) (hall : ∀ h ∈ hops, hop_wf h = true) :
    read_hops (write_hops hops ++ suffix) = some (hops, suffix) := by
  unfold read_hops write_hops
  rw [List.cons_append]
  have hmod : hops.length % 256 = hops.length := Nat.mod_eq_of_lt (by omega)
  have hread : read_be 1 ((hops.length % 256) :: (write_hops_list hops ++ suffix)) =
      some (hops.length, write_hops_list hops ++ suffix) := by
    have hstep : read_be 1 ((hops.length % 256) :: (write_hops_list hops ++ suffix)) =
        some (0 * 256 + hops.length % 256, write_hops_list hops ++ suffix) := rfl
    rw [hstep, Nat.zero_mul, Nat.zero_add, hmod]
  rw [hread]
  simp only [obind_some]
  exact read_hops_go_spec hops suffix hall

/-- The counted-paths loop round trips with a remaining suffix. -/
theorem read_paths_go_spec : ∀ (paths : List (List RouteHop)) (suffix : List Nat),
    (∀ p ∈ paths, p.length ≤ 255 ∧ ∀ h ∈ p, hop_wf h = true) →
    read_paths_go paths.length (write_paths_list paths ++ suffix) =
      some (paths, suffix) := by
  intro paths
  induction paths with
  | nil => intro suffix _; rfl
  | cons p rest ih =>
    intro suffix hall
    show read_paths_go (rest.length + 1)
      ((write_hops p ++ write_paths_list rest) ++ suffix) = _
    rw [List.append_assoc]
    unfold read_paths_go
    rw [read_hops_spec p _ (hall p (List.mem_cons_self _ _)).1
      (hall p (List.mem_cons_self _ _)).2]
    simp only [obind_some]
    rw [ih suffix (fun p2 hp => hall p2 (List.mem_cons_of_mem _ hp))]
    simp only [obind_some]

/-- C10: serializing a `Route` whose paths each hold at most 255 hops (and
whose fields are in `u64`/`u32`/pubkey range) and deserializing the produced
bytes yields the original route with no bytes left over.  The reader's
up-front allocation cap of `min(path_count, 128)` has no observable effect —
its loop reads all `path_count` declared paths — so the round trip covers
routes with more than 128 paths as well (the theorem bounds only the
per-path hop counts, not the number of paths). -/
theorem route_serialization_round_trip (r : Route) (hwf : route_wf r = true) :
    read_route (write_route r) = some (r, []) := by
  have hr : r.paths.length < 2 ^ 64 ∧
      ∀ p ∈ r.paths, p.length ≤ 255 ∧ ∀ h ∈ p, hop_wf h = true := by
    rw [route_wf, Bool.and_eq_true, decide_eq_true_eq, List.all_eq_true] at hwf
    refine ⟨hwf.1, ?_⟩
    intro p hp
    have := hwf.2 p hp
    rw [Bool.and_eq_true, decide_eq_true_eq, List.all_eq_true] at this
    exact this
  have h64 : (2 : Nat) ^ 64 = 256 ^ 8 := by norm_num
  unfold read_route write_route
  rw [read_be_spec 8 r.paths.length _ (by rw [← h64]; exact hr.1)]
  simp only [obind_some]
  have := read_paths_go_spec r.paths [] hr.2
  rw [List.append_nil] at this
  rw [this]
  simp only [obind_some]

/-- Witness for C10: the concrete single-path route of the C1 instance is
serializable and round trips. -/
theorem route_serialization_round_trip_witness :
    route_wf c1Route = true ∧ read_route (write_route c1Route) = some (c1Route, []) :=
  ⟨by decide, route_serialization_round_trip c1Route (by decide)⟩

end Router
